import Mathlib

/-! autobahn-oplog: a shallow embedding of the oplog tailer and coordinator.

The development follows the four source files.

* `util.go`: `Timestamp`, `NewTimestamp`, `NewBsonMongoTimestamp`,
  `LastBsonMongoTimestamp`.
* `oplogdoc.go`: `OplogDoc`.
* `tailer.go`: `timestampForStartSpecifier` and the loop of `tail`, as a step
  function driven by what the driver reports at each iteration.
* `coordinator.go`: the member selection of `shardNodeForHost`, `makeShardMap`,
  `makeTailers` and `NewCoordinator`.

Machine integers are integers with explicit wrap-around (`wrapInt64`,
`wrapInt32`); the Go `int` is taken to be 64 bits wide.  The start specifier is
the list of its characters.  A run-time panic or a process abort is an
explicit `none`.
-/

namespace Oplog

/-! ## Machine integers -/

/-- Two's complement reduction of an integer to the range of `int64`. -/
def wrapInt64 (x : Int) : Int :=
  (x + 9223372036854775808) % 18446744073709551616 - 9223372036854775808

/-- Two's complement reduction of an integer to the range of `int32`. -/
def wrapInt32 (x : Int) : Int :=
  (x + 2147483648) % 4294967296 - 2147483648

/-! ## util.go -/

/-- The struct `Timestamp`: both fields are `int32`. -/
structure Timestamp where
  sec : Int
  ordinal : Int
deriving DecidableEq, Repr

/-- The function `NewTimestamp`: `ordinal = int32((bts << 32) >> 32)` and
`sec = int32(bts >> 32)` on the `int64` value `bts`; the right shift of a
signed value is the floor division by `2^32`. -/
def NewTimestamp (bts : Int) : Timestamp :=
  { ordinal := wrapInt32 (wrapInt64 (bts * 4294967296) / 4294967296),
    sec := wrapInt32 (bts / 4294967296) }

/-- A wall-clock reading of the Go `time.Time`: the seconds since the UNIX epoch
(what `Unix()` returns, an `int64`) and the nanoseconds within the second. -/
structure Time where
  sec : Int
  nsec : Int
deriving DecidableEq, Repr

/-- The method `time.Time.Unix`. -/
def Time.Unix (t : Time) : Int := t.sec

/-- The method `time.Time.Add` for a duration `d` in nanoseconds (an `int64`):
Go splits `d` with truncated division and renormalises the nanoseconds. -/
def Time.Add (t : Time) (d : Int) : Time :=
  let dsec := Int.tdiv d 1000000000
  let nsec := t.nsec + Int.tmod d 1000000000
  if 1000000000 ≤ nsec then { sec := t.sec + (dsec + 1), nsec := nsec - 1000000000 }
  else if nsec < 0 then { sec := t.sec + (dsec - 1), nsec := nsec + 1000000000 }
  else { sec := t.sec + dsec, nsec := nsec }

/-- The function `NewBsonMongoTimestamp`: clamp `t.Unix()` at zero and shift
it left by 32 bits in `int64`. -/
def NewBsonMongoTimestamp (t : Time) : Int :=
  let ut := t.Unix
  let ut := if ut < 0 then 0 else ut
  wrapInt64 (ut * 4294967296)

/-! ## oplogdoc.go -/

/-- The struct `OplogDoc`; the two payload documents are kept as opaque
serialised values. -/
structure OplogDoc where
  Timestamp : Int
  HistoryID : Int
  MongoVersion : Int
  Operation : String
  Namespace : String
  Object : Option String
  UpdateObject : Option String
deriving DecidableEq, Repr

/-- The function `LastBsonMongoTimestamp`: the timestamp of the last entry in
natural order; the zero value when the query finds nothing. -/
def LastBsonMongoTimestamp (oplog : List OplogDoc) : Int :=
  match oplog.getLast? with
  | some d => d.Timestamp
  | none => 0

/-! ## tailer.go: the start specifier -/

/-- The Go function `strings.ToLower`, on the ASCII letters.  No rune outside ASCII
lowercases to `n`, `o` or `w`, so the comparison with `"now"` is unaffected. -/
def ToLower (s : List Char) : List Char := s.map Char.toLower

/-- The digit loop of `strconv.ParseUint` in base 10: `none` on a character
that is not a decimal digit, otherwise the value read after `acc`. -/
def parseDigits : List Char → Nat → Option Nat
  | [], acc => some acc
  | c :: cs, acc =>
    if c.isDigit then parseDigits cs (acc * 10 + (c.toNat - 48)) else none

/-- The Go function `strconv.Atoi` with a 64-bit `int`: an optional sign, at least one
decimal digit, and a value in the range of `int64`; `none` stands for a
non-nil error (syntax or range). -/
def Atoi (s : List Char) : Option Int :=
  match s with
  | [] => none
  | c :: cs =>
    let neg := decide (c = '-')
    let ds := if c = '-' ∨ c = '+' then cs else s
    if ds = [] then none
    else
      match parseDigits ds 0 with
      | none => none
      | some n =>
        if neg then (if n ≤ 9223372036854775808 then some (-(n : Int)) else none)
        else (if n < 9223372036854775808 then some (n : Int) else none)

/-- The method `timestampForStartSpecifier`.  The arguments `oplog` and `now`
stand for what the session and `time.Now()` answer.  The result is `none`
when the code panics: the second `case` indexes `startSpecifier[0]`. -/
def timestampForStartSpecifier (oplog : List OplogDoc) (now : Time)
    (startSpecifier : List Char) : Option Int :=
  if ToLower startSpecifier = ['n', 'o', 'w'] then
    some (LastBsonMongoTimestamp oplog)
  else
    match startSpecifier with
    | [] => none
    | c :: rest =>
      if c = '-' then
        let offset := match Atoi rest with
          | some n => n
          | none => 0
        some (NewBsonMongoTimestamp
          (now.Add (wrapInt64 (wrapInt64 (-offset) * 60000000000))))
      else
        some (NewBsonMongoTimestamp now)

/-! ## tailer.go: the loop of `tail` -/

/-- The two clauses that `tail` appends to the base query when it opens a
cursor: `ts >= lastTs` and `h not in hidsForLastTs`. -/
structure Selector where
  lastTs : Int
  hids : List Int
deriving DecidableEq, Repr

/-- The pair of a document that the resume state looks at. -/
def OplogDoc.key (o : OplogDoc) : Int × Int := (o.Timestamp, o.HistoryID)

/-- Whether a (timestamp, historyID) pair passes the two appended clauses. -/
def Selector.admits (sel : Selector) (k : Int × Int) : Bool :=
  decide (sel.lastTs ≤ k.1) && !(sel.hids.contains k.2)

/-- Whether a document matches the selector `sel` of `tail`: the base query
followed by the two appended clauses. -/
def Selector.selects (baseQuery : OplogDoc → Bool) (sel : Selector) (o : OplogDoc) : Bool :=
  baseQuery o && sel.admits o.key

/-- An open `mgo.Iter`: the selector it was opened with and the position in the
oplog from which it goes on scanning. -/
structure Iter where
  sel : Selector
  pos : Nat
deriving DecidableEq, Repr

/-- The errors `iter.Err()` can report: `mgo.ErrCursor` or anything else. -/
inductive IterErr where
  | ErrCursor
  | other (msg : String)
deriving DecidableEq, Repr

/-- What the driver and the channels answer in one iteration of the loop:
either `iter.Next` decodes the oplog entry number `i` into `o`, and the
`select` takes `DoneChan` (`done`) or sends on `OutChan`; or `iter.Next` is
false and `iter.Err()`, `iter.Timeout()` answer `err`, `timedOut`. -/
inductive Event where
  | doc (i : Nat) (o : OplogDoc) (done : Bool)
  | noDoc (err : Option IterErr) (timedOut : Bool)
deriving DecidableEq, Repr

/-- Whether `tail` is still looping or has returned (with its error value). -/
inductive Status where
  | running
  | returned (err : Option IterErr)
deriving DecidableEq, Repr

/-- The variables of `tail`, with the sequence of documents sent on `OutChan`. -/
structure TailState where
  iter : Option Iter
  lastTs : Int
  hidsForLastTs : List Int
  out : List OplogDoc
deriving DecidableEq, Repr

/-- The state at the entry of the loop: `lastTs := t.InitialTs`, no cursor. -/
def tailInit (InitialTs : Int) : TailState :=
  { iter := none, lastTs := InitialTs, hidsForLastTs := [], out := [] }

/-- The selector built from the current resume state (lines 90 to 109). -/
def TailState.selector (s : TailState) : Selector :=
  { lastTs := s.lastTs, hids := s.hidsForLastTs }

/-- The head of the loop body: a nil `iter` is replaced by a cursor opened
with the current selector; an open one is kept. -/
def openIter (s : TailState) : Iter :=
  match s.iter with
  | some it => it
  | none => { sel := s.selector, pos := 0 }

/-- One iteration of the loop of `tail`. -/
def tailStep (s : TailState) (ev : Event) : TailState × Status :=
  let it := openIter s
  match ev with
  | .doc i o done =>
    if done then
      ({ s with iter := none }, .returned none)
    else
      let lastTs := if s.lastTs < o.Timestamp then o.Timestamp else s.lastTs
      let hids := if s.lastTs < o.Timestamp then [] else s.hidsForLastTs
      ({ iter := some { sel := it.sel, pos := i + 1 },
         lastTs := lastTs,
         hidsForLastTs := hids ++ [o.HistoryID],
         out := s.out ++ [o] }, .running)
  | .noDoc err timedOut =>
    if err ≠ none ∧ err ≠ some IterErr.ErrCursor then
      ({ s with iter := some it }, .returned err)
    else if timedOut then
      ({ s with iter := some it }, .running)
    else
      ({ s with iter := none }, .running)

/-- The loop of `tail` run over a sequence of answers; it stops at the first
iteration that returns. -/
def tailRun (s : TailState) : List Event → TailState × Status
  | [] => (s, .running)
  | ev :: evs =>
    match tailStep s ev with
    | (s1, .running) => tailRun s1 evs
    | r => r

/-- An answer is one a cursor over `oplog` can give: a document it yields is
the oplog entry at a position not before the cursor position, and matches the
selector the cursor was opened with. -/
def legitEvent (baseQuery : OplogDoc → Bool) (oplog : List OplogDoc) (s : TailState) :
    Event → Bool
  | .doc i o _ =>
    decide ((openIter s).pos ≤ i) && decide (oplog[i]? = some o)
      && (openIter s).sel.selects baseQuery o
  | .noDoc _ _ => true

/-- An answer of a cursor that skips nothing: a yielded document is the first
matching entry at or after the cursor position. -/
def exactEvent (baseQuery : OplogDoc → Bool) (oplog : List OplogDoc) (s : TailState)
    (ev : Event) : Bool :=
  legitEvent baseQuery oplog s ev &&
  match ev with
  | .doc i _ _ =>
    ((oplog.take i).drop (openIter s).pos).all
      (fun e => !((openIter s).sel.selects baseQuery e))
  | .noDoc _ _ => true

/-- Every answer along the run satisfies `ok` in the state it is given in. -/
def runAll (ok : TailState → Event → Bool) (s : TailState) : List Event → Bool
  | [] => true
  | ev :: evs =>
    ok s ev &&
    match tailStep s ev with
    | (s1, .running) => runAll ok s1 evs
    | _ => true

/-- A run in which every cursor yields, in oplog order, entries matching the
query it was opened with. -/
def legitRun (baseQuery : OplogDoc → Bool) (oplog : List OplogDoc) (s : TailState)
    (evs : List Event) : Bool :=
  runAll (legitEvent baseQuery oplog) s evs

/-- A run in which moreover no cursor skips a matching entry. -/
def exactRun (baseQuery : OplogDoc → Bool) (oplog : List OplogDoc) (s : TailState)
    (evs : List Event) : Bool :=
  runAll (exactEvent baseQuery oplog) s evs

/-- What `mgo.Iter` can report once `Next` is false: `Next` clears the timeout
flag on entry and sets it only while no error is recorded, so a set timeout
flag comes with a nil error. -/
def driverReports (err : Option IterErr) (timedOut : Bool) : Bool :=
  !timedOut || decide (err = none)

/-- An oplog entry with the given timestamp and history ID (an insert). -/
def mkDoc (ts h : Int) : OplogDoc :=
  { Timestamp := ts, HistoryID := h, MongoVersion := 2, Operation := "i",
    Namespace := "db.c", Object := none, UpdateObject := none }

/-! ## coordinator.go -/

/-- A decoded BSON value as Go holds it in an `interface{}`: nil (also what
indexing a map at an absent key gives); a Go `int`, which is what the driver
decodes a 32-bit integer to; an `int64` (a `NumberLong`); a `float64` other
than a NaN, named by a tag that identifies it up to `==`; a `float64` NaN,
which `==` tells apart from every value, itself included; a `string`; a value
of another hashable type (`bool`, an object id, a time); or a value of an
unhashable type (a nested document, an array, binary data). -/
inductive Value where
  | null
  | int (n : Int)
  | long (n : Int)
  | double (tag : Nat)
  | nan
  | str (s : String)
  | other (tag : Nat)
  | composite (tag : Nat)
deriving DecidableEq, Repr

/-- Whether a value can be the key of a Go map with keys of type `interface{}`;
an unhashable key makes the assignment `m[k] = v` panic. -/
def Value.hashable : Value → Bool
  | Value.composite _ => false
  | _ => true

/-- A number of another dynamic type than `int`: it differs from the untyped
constants `0`, `1`, `2` that the code compares with, whatever its value. -/
def Value.otherNumber : Value → Bool
  | Value.long _ => true
  | Value.double _ => true
  | Value.nan => true
  | _ => false

/-- Equality of two keys of a Go map with keys of type `interface{}`: the same
dynamic type and `==` values, so that a NaN equals no key. -/
def Value.keyEq (a b : Value) : Bool :=
  decide (a = b) && decide (a ≠ Value.nan)

/-- The type assertion `v.(string)` followed by `if ok`: the string held by
`v`, and `dflt` when `v` is not a string. -/
def stringOr (v : Value) (dflt : String) : String :=
  match v with
  | Value.str s => s
  | _ => dflt

/-- The struct `MongoConfig` of util.go. -/
structure MongoConfig where
  Host : String
  Port : Nat
  User : String
  Password : String
  Database : String
  OplogDatabase : String
  OplogCollection : String
deriving DecidableEq, Repr

/-- The keys of one element of `rsConfig["members"]` that the code reads. -/
structure ConfigMember where
  id : Value
  host : Value
  slaveDelay : Value
deriving DecidableEq, Repr

/-- The keys of one element of `rsStatus["members"]` that the code reads. -/
structure StatusMember where
  id : Value
  state : Value
deriving DecidableEq, Repr

/-- The document `bson.M{"host": ..., "slaveDelay": ...}` stored in `rsConfigMap`. -/
structure ConfigEntry where
  host : Value
  slaveDelay : Value
deriving DecidableEq, Repr

/-- What a dialled node answers: the `members` of `replSetGetStatus` and of the
document of `local.system.replset`.  The outer `none` is a `members` key that
is not a `[]interface{}` (or a failed command); an inner `none` is an element
that is not a `bson.M`. -/
structure ReplSetAnswers where
  rsStatusMembers : Option (List (Option StatusMember))
  rsConfigMembers : Option (List (Option ConfigMember))
deriving DecidableEq, Repr

/-- The assignment `m[k] = v` on a Go map held as an association list with
distinct keys. -/
def mapSet {κ ν : Type} [DecidableEq κ] (m : List (κ × ν)) (k : κ) (v : ν) : List (κ × ν) :=
  (k, v) :: m.filter (fun p => decide (p.1 ≠ k))

/-- The assignment `m[k] = v` on a Go map with keys of type `interface{}` at a
hashable key: the entry of an equal key is replaced, and a NaN adds an entry. -/
def mapSetValue {ν : Type} (m : List (Value × ν)) (k : Value) (v : ν) : List (Value × ν) :=
  (k, v) :: m.filter (fun p => !p.1.keyEq k)

/-- One iteration of the loop over `configMembers` (lines 123 to 132): `none`
is the panic of an assignment at an unhashable `_id`. -/
def configStep (acc : Option (List (Value × ConfigEntry))) (cm : Option ConfigMember) :
    Option (List (Value × ConfigEntry)) :=
  match acc, cm with
  | none, _ => none
  | some m, none => some m
  | some m, some c =>
    if c.id.hashable then
      some (mapSetValue m c.id { host := c.host, slaveDelay := c.slaveDelay })
    else none

/-- The map `rsConfigMap` after the loop over `configMembers` (lines 121 to
133); `none` when the code panics. -/
def rsConfigMapOf (configMembers : Option (List (Option ConfigMember))) :
    Option (List (Value × ConfigEntry)) :=
  match configMembers with
  | none => some []
  | some ms => ms.foldl configStep (some [])

/-- One iteration of the loop over `statusMembers` (lines 137 to 142): `none`
is the panic of an assignment at an unhashable `_id`. -/
def statusStep (acc : Option (List (Value × Value))) (sm : Option StatusMember) :
    Option (List (Value × Value)) :=
  match acc, sm with
  | none, _ => none
  | some m, none => some m
  | some m, some c => if c.id.hashable then some (mapSetValue m c.id c.state) else none

/-- The map `rsStatusMap` after the loop over `statusMembers` (lines 135 to
143); `none` when the code panics. -/
def rsStatusMapOf (statusMembers : Option (List (Option StatusMember))) :
    Option (List (Value × Value)) :=
  match statusMembers with
  | none => some []
  | some ms => ms.foldl statusStep (some [])

/-- The expression `rsConfigMap[id]`: at an absent key Go gives the nil map,
whose every key reads as nil. -/
def configOf (rsConfigMap : List (Value × ConfigEntry)) (id : Value) : ConfigEntry :=
  match rsConfigMap.find? (fun p => p.1.keyEq id) with
  | some p => p.2
  | none => { host := Value.null, slaveDelay := Value.null }

/-- The selection loop of `shardNodeForHost` (lines 145 to 157) over the
entries of `rsStatusMap` in the order the `range` visits them. -/
def selectLoop (rsConfigMap : List (Value × ConfigEntry)) :
    List (Value × Value) → String → String
  | [], selectedHost => selectedHost
  | (id, state) :: rest, selectedHost =>
    if state = Value.int 1 ∨ state = Value.int 2 then
      if (configOf rsConfigMap id).slaveDelay = Value.int 0
          ∨ (configOf rsConfigMap id).slaveDelay = Value.null then
        let selectedHost := stringOr (configOf rsConfigMap id).host selectedHost
        if state = Value.int 2 then selectedHost
        else selectLoop rsConfigMap rest selectedHost
      else selectLoop rsConfigMap rest selectedHost
    else selectLoop rsConfigMap rest selectedHost

/-- Lines 112 to 159 of `shardNodeForHost`: the host selected from the answers
of the dialled node, when the `range` visits `rsStatusMap` in the order
`order`; `none` when building one of the two maps panics. -/
def selectedHost (answers : ReplSetAnswers) (order : List (Value × Value)) : Option String :=
  match rsConfigMapOf answers.rsConfigMembers, rsStatusMapOf answers.rsStatusMembers with
  | some rsConfigMap, some _ => some (selectLoop rsConfigMap order "")
  | _, _ => none

/-- The function `mongoConnectionStringForHostAndConfig`. -/
def mongoConnectionStringForHostAndConfig (host : String) (cfg : MongoConfig) : String :=
  if cfg.User = "" ∧ cfg.Password = "" then
    host ++ "/" ++ cfg.Database
  else
    cfg.User ++ ":" ++ cfg.Password ++ "@" ++ host ++ "/" ++ cfg.Database ++ "?authSource=admin"

/-- The two keys of a document of `config.shards` that `makeShardMap` reads:
`result["host"]` and `result["_id"]` (nil when the key is absent). -/
structure ShardDoc where
  host : Value
  id : Value
deriving DecidableEq, Repr

/-- The deployment the coordinator talks to: the `msg` of the `isMaster`
answer, the documents of `config.shards`, what `mgo.Dial` gives for a
connection string (`none`: the dial fails), and the order in which a `range`
visits the status map. -/
structure Deployment where
  isMasterMsg : Value
  shardDocs : List ShardDoc
  dial : String → Option ReplSetAnswers
  visit : List (Value × Value) → List (Value × Value)

/-- The pieces of a character list between the occurrences of `sep`. -/
def splitChars (sep : Char) : List Char → List (List Char)
  | [] => [[]]
  | c :: cs =>
    if c = sep then [] :: splitChars sep cs
    else
      match splitChars sep cs with
      | [] => [[c]]
      | w :: ws => (c :: w) :: ws

/-- The Go function `strings.Split` for a separator of one character. -/
def Split (s : String) (sep : Char) : List String :=
  (splitChars sep s.toList).map String.mk

/-- The method `shardNodeForHost`; `none` when the process stops: an index out
of range in the parse of `extendedHost`, `log.Fatalln` on a failed dial, or a
panic at an unhashable member `_id`. -/
def shardNodeForHost (cfg : MongoConfig) (env : Deployment) (extendedHost : String) :
    Option String :=
  match (Split extendedHost '/')[1]? with
  | none => none
  | some hosts =>
    match (Split hosts ',')[1]? with
    | none => none
    | some host =>
      match env.dial (mongoConnectionStringForHostAndConfig host cfg) with
      | none => none
      | some answers =>
        match rsStatusMapOf answers.rsStatusMembers with
        | none => none
        | some rsStatusMap => selectedHost answers (env.visit rsStatusMap)

/-- The struct `OplogTailer`, as far as the coordinator fills it. -/
structure OplogTailer where
  Host : String
  InitialTs : Int
deriving DecidableEq, Repr

/-- The function `NewOplogTailer`: nil when the dial fails. -/
def NewOplogTailer (baseCfg : MongoConfig) (env : Deployment) (host : String) :
    Option OplogTailer :=
  match env.dial (mongoConnectionStringForHostAndConfig host baseCfg) with
  | none => none
  | some _ => some { Host := host, InitialTs := 0 }

/-- The struct `Coordinator`: `shards` is `none` while the map is nil, and a
tailer is `none` when `NewOplogTailer` returned nil. -/
structure Coordinator where
  Tailers : List (Option OplogTailer)
  shards : Option (List (String × String))
  isMongos : Bool
deriving DecidableEq, Repr

/-- The method `sourceIsMongos`: `result["msg"] == "isdbgrid"`. -/
def sourceIsMongos (env : Deployment) : Bool :=
  decide (env.isMasterMsg = Value.str "isdbgrid")

/-- The loop of `makeShardMap` over the shard documents, with
`shardNodeForHost` as `node`: the outer `none` is a process stopped inside
`node`, `Except.error` is the returned error. -/
def shardLoop (node : String → Option String) :
    List ShardDoc → List (String × String) →
      Option (Except String (List (String × String)))
  | [], shardMap => some (Except.ok shardMap)
  | result :: rest, shardMap =>
    match result.host with
    | Value.str host =>
      if host.toList.contains '/' then
        match result.id with
        | Value.str id =>
          match node host with
          | some n => shardLoop node rest (mapSet shardMap id n)
          | none => none
        | _ => some (Except.error "could not parse id")
      else shardLoop node rest shardMap
    | _ => some (Except.error "could not parse host")

/-- The method `makeShardMap`: the coordinator after the call and the returned
error (`none` for nil); the outer `none` is a stopped process. -/
def makeShardMap (cfg : MongoConfig) (env : Deployment) (c : Coordinator) :
    Option (Coordinator × Option String) :=
  match shardLoop (shardNodeForHost cfg env) env.shardDocs [] with
  | none => none
  | some (Except.error e) => some (c, some e)
  | some (Except.ok shardMap) => some ({ c with shards := some shardMap }, none)

/-- The method `makeTailers`; it always returns a nil error. -/
def makeTailers (cfg : MongoConfig) (env : Deployment) (c : Coordinator) :
    Coordinator × Option String :=
  if c.isMongos then
    match c.shards with
    | none => ({ c with Tailers := [] }, none)
    | some shards =>
      if shards.length = 0 then ({ c with Tailers := [] }, none)
      else ({ c with Tailers := shards.map (fun p => NewOplogTailer cfg env p.2) }, none)
  else
    ({ c with Tailers := [NewOplogTailer cfg env (cfg.Host ++ ":" ++ toString cfg.Port)] },
      none)

/-- The function `NewCoordinator`: `some none` is the nil coordinator, the
outer `none` a stopped process. -/
def NewCoordinator (cfg : MongoConfig) (env : Deployment) : Option (Option Coordinator) :=
  let c : Coordinator := { Tailers := [], shards := none, isMongos := sourceIsMongos env }
  let afterShards : Option (Option Coordinator) :=
    if c.isMongos then
      match makeShardMap cfg env c with
      | none => none
      | some (_, some _) => some none
      | some (c1, none) => some (some c1)
    else some (some c)
  match afterShards with
  | none => none
  | some none => some none
  | some (some c1) =>
    match makeTailers cfg env c1 with
    | (_, some _) => some none
    | (c2, none) => some (some c2)

/-! ## Invariants of the loop of `tail` -/

/-- The history IDs of the documents of `out` whose timestamp is `ts`. -/
def hidsAt (out : List OplogDoc) (ts : Int) : List Int :=
  (out.filter (fun o => decide (o.Timestamp = ts))).map OplogDoc.HistoryID

/-- An oplog in non-decreasing timestamp order. -/
def TsSorted (oplog : List OplogDoc) : Prop :=
  oplog.Pairwise (fun a b => a.Timestamp ≤ b.Timestamp)

/-- The relation kept between a cursor and the resume state: the cursor was
opened at or below `lastTs`, and `lastTs` is either the value it was opened
with or the timestamp of an entry before its position. -/
def CursorBehind (oplog : List OplogDoc) (s : TailState) (it : Iter) : Prop :=
  it.sel.lastTs ≤ s.lastTs ∧
  (s.lastTs = it.sel.lastTs ∨
    ∃ j e, j < it.pos ∧ oplog[j]? = some e ∧ e.Timestamp = s.lastTs)

/-- The invariant of the resume state over an oplog in timestamp order. -/
structure ResumeInv (oplog : List OplogDoc) (s : TailState) : Prop where
  below : ∀ o ∈ s.out, o.Timestamp ≤ s.lastTs
  hids : s.hidsForLastTs = hidsAt s.out s.lastTs
  cursor : ∀ it, s.iter = some it → CursorBehind oplog s it

/-- The invariant behind the absence of repeated emissions: every emitted
document is at or below `lastTs`, those at `lastTs` are recorded in
`hidsForLastTs`, no pair is emitted twice, and an emitted document that the
open cursor admits lies before the cursor position. -/
structure EmitInv (oplog : List OplogDoc) (s : TailState) : Prop where
  below : ∀ e ∈ s.out, e.Timestamp ≤ s.lastTs
  seen : ∀ e ∈ s.out, e.Timestamp = s.lastTs → e.HistoryID ∈ s.hidsForLastTs
  nodup : (s.out.map OplogDoc.key).Nodup
  passed : ∀ it, s.iter = some it → ∀ e ∈ s.out, it.sel.admits e.key = true →
    ∃ j, j < it.pos ∧ (oplog.map OplogDoc.key)[j]? = some e.key

/-- The entries a tailer started at `InitialTs` has to emit: the oplog entries
matching the base query whose timestamp is not below `InitialTs`, in oplog
order. -/
def due (baseQuery : OplogDoc → Bool) (InitialTs : Int) (oplog : List OplogDoc) :
    List OplogDoc :=
  oplog.filter (fun e => baseQuery e && decide (InitialTs ≤ e.Timestamp))

/-- The state of `tail` right after the cursor reported `mgo.ErrCursor`. -/
def afterExpiry (s : TailState) : TailState :=
  (tailStep s (Event.noDoc (some IterErr.ErrCursor) false)).1

/-- The invariant behind the exact resumption: the emitted documents are an
initial segment of the due entries, the resume state describes its last
element, and an open cursor has exactly the remaining due entries ahead. -/
structure ExactInv (baseQuery : OplogDoc → Bool) (oplog : List OplogDoc) (InitialTs : Int)
    (s : TailState) : Prop where
  low : InitialTs ≤ s.lastTs
  below : ∀ e ∈ s.out, e.Timestamp ≤ s.lastTs
  reached : s.lastTs = InitialTs ∨ ∃ e ∈ s.out, e.Timestamp = s.lastTs
  seen : ∀ e ∈ s.out, e.Timestamp = s.lastTs → e.HistoryID ∈ s.hidsForLastTs
  known : ∀ h ∈ s.hidsForLastTs, ∃ e ∈ s.out, e.HistoryID = h
  initial : ∃ rest, due baseQuery InitialTs oplog = s.out ++ rest
  cursor : ∀ it, s.iter = some it →
    s.out ++ (oplog.drop it.pos).filter (it.sel.selects baseQuery)
      = due baseQuery InitialTs oplog

/-! ## Eligibility of replica-set members -/

/-- The test of lines 146 and 147 on an entry `(id, state)` of `rsStatusMap`:
state 1 or 2, and a `slaveDelay` that is zero or absent. -/
def eligible (rsConfigMap : List (Value × ConfigEntry)) (p : Value × Value) : Bool :=
  (decide (p.2 = Value.int 1) || decide (p.2 = Value.int 2)) &&
  (decide ((configOf rsConfigMap p.1).slaveDelay = Value.int 0)
    || decide ((configOf rsConfigMap p.1).slaveDelay = Value.null))

/-- The declared host of the member `p` is the string `h`. -/
def declaredHost (rsConfigMap : List (Value × ConfigEntry)) (p : Value × Value)
    (h : String) : Prop :=
  (configOf rsConfigMap p.1).host = Value.str h

/-- A shard document on which `makeShardMap` returns a parse error: `host` is
not a string, or `host` contains `/` and `_id` is not a string. -/
def ShardDoc.unreadable (d : ShardDoc) : Bool :=
  match d.host with
  | Value.str host =>
    host.toList.contains '/' &&
      (match d.id with
       | Value.str _ => false
       | _ => true)
  | _ => true

/-- A replica set with a primary `a:1` (member 0) and a secondary `b:2`
(member 1), both without delay. -/
def sampleAnswers : ReplSetAnswers :=
  { rsStatusMembers := some [some { id := Value.int 0, state := Value.int 1 },
                             some { id := Value.int 1, state := Value.int 2 }],
    rsConfigMembers := some [some { id := Value.int 0, host := Value.str "a:1",
                                    slaveDelay := Value.null },
                             some { id := Value.int 1, host := Value.str "b:2",
                                    slaveDelay := Value.int 0 }] }

/-- The same replica set when the configuration read does not list the
secondary (member 1). -/
def staleAnswers : ReplSetAnswers :=
  { rsStatusMembers := sampleAnswers.rsStatusMembers,
    rsConfigMembers := some [some { id := Value.int 0, host := Value.str "a:1",
                                    slaveDelay := Value.null }] }

/-- The replica set of `sampleAnswers` as a server storing `slaveDelay` in 64
bits answers: both members have `slaveDelay: NumberLong(0)`. -/
def longZeroAnswers : ReplSetAnswers :=
  { rsStatusMembers := sampleAnswers.rsStatusMembers,
    rsConfigMembers := some [some { id := Value.int 0, host := Value.str "a:1",
                                    slaveDelay := Value.long 0 },
                             some { id := Value.int 1, host := Value.str "b:2",
                                    slaveDelay := Value.long 0 }] }

/-- The map `rsConfigMap` built from `sampleAnswers`. -/
def sampleConfigMap : List (Value × ConfigEntry) :=
  [(Value.int 1, { host := Value.str "b:2", slaveDelay := Value.int 0 }),
   (Value.int 0, { host := Value.str "a:1", slaveDelay := Value.null })]

/-- The value is the integer `n`, held in 32 bits (a Go `int`) or in 64 bits. -/
def Value.isInteger (v : Value) (n : Int) : Bool :=
  decide (v = Value.int n) || decide (v = Value.long n)

/-- Eligibility as the specification words it, whatever the integer width:
state 1 or 2, and a `slaveDelay` that is absent or zero. -/
def eligibleAsStated (rsConfigMap : List (Value × ConfigEntry)) (p : Value × Value) : Bool :=
  (p.2.isInteger 1 || p.2.isInteger 2) &&
  (decide ((configOf rsConfigMap p.1).slaveDelay = Value.null)
    || (configOf rsConfigMap p.1).slaveDelay.isInteger 0)

/-- The map `rsConfigMap` built from `staleAnswers`. -/
def staleConfigMap : List (Value × ConfigEntry) :=
  [(Value.int 0, { host := Value.str "a:1", slaveDelay := Value.null })]

/-- The map `rsConfigMap` built from `longZeroAnswers`. -/
def longZeroConfigMap : List (Value × ConfigEntry) :=
  [(Value.int 1, { host := Value.str "b:2", slaveDelay := Value.long 0 }),
   (Value.int 0, { host := Value.str "a:1", slaveDelay := Value.long 0 })]

/-- The map `rsStatusMap` built from `sampleAnswers`. -/
def sampleStatusMap : List (Value × Value) :=
  [(Value.int 1, Value.int 2), (Value.int 0, Value.int 1)]

/-- A configuration without credentials. -/
def sampleConfig : MongoConfig :=
  { Host := "localhost", Port := 27017, User := "", Password := "", Database := "test",
    OplogDatabase := "local", OplogCollection := "oplog.rs" }

/-- A router whose only shard document has a host without `/` and no `_id`. -/
def standaloneShardEnv : Deployment :=
  { isMasterMsg := Value.str "isdbgrid",
    shardDocs := [{ host := Value.str "a:1", id := Value.null }],
    dial := fun _ => none,
    visit := fun m => m }

/-- A router whose second shard document has no `host`. -/
def brokenShardEnv : Deployment :=
  { isMasterMsg := Value.str "isdbgrid",
    shardDocs := [{ host := Value.str "rs0/a:1,b:2", id := Value.str "s0" },
                  { host := Value.null, id := Value.str "s1" }],
    dial := fun _ => some sampleAnswers,
    visit := fun m => m }

/-! # Theorems -/

/-! ## Timestamps -/

theorem wrapInt64_of_range (x : Int) (h1 : -9223372036854775808 ≤ x)
    (h2 : x < 9223372036854775808) : wrapInt64 x = x := by
  unfold wrapInt64; omega

theorem NewTimestamp_shifted (x : Int) (h0 : 0 ≤ x) (h1 : x < 2147483648) :
    NewTimestamp (wrapInt64 (x * 4294967296)) = { sec := x, ordinal := 0 } := by
  simp only [NewTimestamp, wrapInt64, wrapInt32, Timestamp.mk.injEq]
  constructor <;> omega

/-- Claim C6, as amended: for a wall-clock time `t` with `t.Unix() < 2^31`,
decoding `NewBsonMongoTimestamp t` with `NewTimestamp` gives `sec = t.Unix()` and
`ordinal = 0` when `t.Unix() >= 0`, and `sec = 0`, `ordinal = 0` when
`t.Unix() < 0`. -/
theorem timestamp_roundtrip (t : Time) (h : t.Unix < 2147483648) :
    (0 ≤ t.Unix →
      (NewTimestamp (NewBsonMongoTimestamp t)).sec = t.Unix ∧
      (NewTimestamp (NewBsonMongoTimestamp t)).ordinal = 0) ∧
    (t.Unix < 0 →
      (NewTimestamp (NewBsonMongoTimestamp t)).sec = 0 ∧
      (NewTimestamp (NewBsonMongoTimestamp t)).ordinal = 0) := by
  constructor
  · intro h0
    have hb : NewBsonMongoTimestamp t = wrapInt64 (t.Unix * 4294967296) := by
      simp only [NewBsonMongoTimestamp]
      rw [if_neg (by omega)]
    rw [hb, NewTimestamp_shifted _ h0 h]
    exact ⟨rfl, rfl⟩
  · intro h0
    have hb : NewBsonMongoTimestamp t = wrapInt64 (0 * 4294967296) := by
      simp only [NewBsonMongoTimestamp]
      rw [if_pos h0]
    rw [hb, NewTimestamp_shifted 0 (by omega) (by omega)]
    exact ⟨rfl, rfl⟩

/-- The round trip of claim C6 at `t.Unix() = 1700000000`. -/
theorem timestamp_roundtrip_witness :
    (0 ≤ Time.Unix { sec := 1700000000, nsec := 0 } →
      (NewTimestamp (NewBsonMongoTimestamp { sec := 1700000000, nsec := 0 })).sec
        = Time.Unix { sec := 1700000000, nsec := 0 } ∧
      (NewTimestamp (NewBsonMongoTimestamp { sec := 1700000000, nsec := 0 })).ordinal = 0) ∧
    (Time.Unix { sec := 1700000000, nsec := 0 } < 0 →
      (NewTimestamp (NewBsonMongoTimestamp { sec := 1700000000, nsec := 0 })).sec = 0 ∧
      (NewTimestamp (NewBsonMongoTimestamp { sec := 1700000000, nsec := 0 })).ordinal = 0) :=
  timestamp_roundtrip { sec := 1700000000, nsec := 0 } (by decide)

/-- Claim C6 as stated fails at `t.Unix() = 2^31`: the decoded `sec`, an
`int32`, is negative. -/
theorem sec_wraps_in_2038 :
    0 ≤ Time.Unix { sec := 2147483648, nsec := 0 } ∧
    (NewTimestamp (NewBsonMongoTimestamp { sec := 2147483648, nsec := 0 })).sec
      ≠ Time.Unix { sec := 2147483648, nsec := 0 } := by
  decide

/-- Claim C7 at the empty start specifier: it is not `"now"`, and
`timestampForStartSpecifier` does not return, the index `startSpecifier[0]`
being out of range. -/
theorem startSpecifier_empty_panics (oplog : List OplogDoc) (now : Time) :
    ToLower [] ≠ ['n', 'o', 'w'] ∧ timestampForStartSpecifier oplog now [] = none := by
  constructor
  · simp [ToLower]
  · simp [timestampForStartSpecifier, ToLower]

theorem startSpecifier_other (oplog : List OplogDoc) (now : Time) (c : Char)
    (rest : List Char) (hnow : ToLower (c :: rest) ≠ ['n', 'o', 'w']) (hc : c ≠ '-') :
    timestampForStartSpecifier oplog now (c :: rest) = some (NewBsonMongoTimestamp now) := by
  simp only [timestampForStartSpecifier, if_neg hnow, if_neg hc]

theorem isDigit_ne_sign (c : Char) (h : c.isDigit = true) : c ≠ '-' ∧ c ≠ '+' := by
  constructor <;> (intro hc; subst hc; revert h; decide)

theorem Atoi_of_digits (s : List Char) (N : Nat) (hs : s ≠ [])
    (hp : parseDigits s 0 = some N) (hN : N < 9223372036854775808) :
    Atoi s = some (N : Int) := by
  cases s with
  | nil => exact absurd rfl hs
  | cons c cs =>
    have hd : c.isDigit = true := by
      by_contra hc
      simp [parseDigits, hc] at hp
    obtain ⟨h1, h2⟩ := isDigit_ne_sign c hd
    simp [Atoi, h1, h2, hp, hN]

theorem Time.Add_minutes (t : Time) (k : Int) (h0 : 0 ≤ t.nsec) (h1 : t.nsec < 1000000000) :
    t.Add (k * 60000000000) = { sec := t.sec + 60 * k, nsec := t.nsec } := by
  have hd : Int.tdiv (k * 60000000000) 1000000000 = 60 * k := by
    have : k * 60000000000 = (60 * k) * 1000000000 := by omega
    rw [this, Int.mul_tdiv_cancel _ (by decide)]
  have hm : Int.tmod (k * 60000000000) 1000000000 = 0 := by
    have : k * 60000000000 = (60 * k) * 1000000000 := by omega
    rw [this, Int.mul_tmod_left]
  simp only [Time.Add, hd, hm, Int.add_zero]
  rw [if_neg (by omega), if_neg (by omega)]

theorem startSpecifier_dash (oplog : List OplogDoc) (now : Time) (rest : List Char) :
    timestampForStartSpecifier oplog now ('-' :: rest) =
      some (NewBsonMongoTimestamp (now.Add (wrapInt64 (wrapInt64
        (-(match Atoi rest with | some n => n | none => 0)) * 60000000000)))) := by
  have h : ToLower ('-' :: rest) ≠ ['n', 'o', 'w'] := by
    simp [ToLower]
  simp only [timestampForStartSpecifier, if_neg h, if_true]


theorem NewBsonMongoTimestamp_eq (t : Time) :
    NewBsonMongoTimestamp t = wrapInt64 (max 0 t.Unix * 4294967296) := by
  simp only [NewBsonMongoTimestamp]
  split
  · rw [max_eq_left (by omega)]
  · rw [max_eq_right (by omega)]

/-- Claim C8, as amended: for the specifier `"-" ++ s` at the wall-clock time
`now`: when `s` is an unsigned decimal integer `N` with `N <= 153722867`, the
result is `max 0 ((now - N minutes).Unix()) << 32`, which `NewTimestamp` decodes
to these seconds and ordinal 0 while they are below `2^31`; when `Atoi` rejects
`s` the same holds with `N = 0`; and for `"-5"` the result is
`(now - 300 s).Unix() << 32` when that epoch is not negative. -/
theorem startSpecifier_minutes (oplog : List OplogDoc) (now : Time) (s : List Char)
    (hns : 0 ≤ now.nsec ∧ now.nsec < 1000000000) :
    (∀ N : Nat, s ≠ [] → parseDigits s 0 = some N → N ≤ 153722867 →
      timestampForStartSpecifier oplog now ('-' :: s)
          = some (wrapInt64 (max 0 (now.Unix - 60 * N) * 4294967296)) ∧
      (now.Unix - 60 * N < 2147483648 →
        NewTimestamp (wrapInt64 (max 0 (now.Unix - 60 * N) * 4294967296))
          = { sec := max 0 (now.Unix - 60 * N), ordinal := 0 })) ∧
    (Atoi s = none →
      timestampForStartSpecifier oplog now ('-' :: s)
          = some (wrapInt64 (max 0 now.Unix * 4294967296)) ∧
      (now.Unix < 2147483648 →
        NewTimestamp (wrapInt64 (max 0 now.Unix * 4294967296))
          = { sec := max 0 now.Unix, ordinal := 0 })) ∧
    (0 ≤ now.Unix - 300 →
      timestampForStartSpecifier oplog now ['-', '5']
          = some (wrapInt64 ((now.Unix - 300) * 4294967296))) := by
  have key : ∀ (r : List Char) (N : Nat), r ≠ [] → parseDigits r 0 = some N →
      N ≤ 153722867 → timestampForStartSpecifier oplog now ('-' :: r)
          = some (wrapInt64 (max 0 (now.Unix - 60 * N) * 4294967296)) := by
    intro r N hr hp hN
    rw [startSpecifier_dash, Atoi_of_digits r N hr hp (by omega)]
    simp only
    have h1 : wrapInt64 (-(N : Int)) = -(N : Int) := wrapInt64_of_range _ (by omega) (by omega)
    have h2 : wrapInt64 (-(N : Int) * 60000000000) = -(N : Int) * 60000000000 :=
      wrapInt64_of_range _ (by omega) (by omega)
    rw [h1, h2, Time.Add_minutes now _ hns.1 hns.2, NewBsonMongoTimestamp_eq]
    simp only [Time.Unix]
    congr 3
    omega
  refine ⟨?_, ?_, ?_⟩
  · intro N hs hp hN
    refine ⟨key s N hs hp hN, ?_⟩
    intro hlt
    exact NewTimestamp_shifted _ (le_max_left _ _) (by omega)
  · intro hA
    constructor
    · rw [startSpecifier_dash, hA]
      simp only
      have h1 : wrapInt64 (wrapInt64 (-0) * 60000000000) = 0 * 60000000000 := by decide
      rw [h1, Time.Add_minutes now 0 hns.1 hns.2, NewBsonMongoTimestamp_eq]
      simp [Time.Unix]
    · intro hlt
      exact NewTimestamp_shifted _ (le_max_left _ _) (by omega)
  · intro h0
    have := key ['5'] 5 (by simp) (by decide) (by decide)
    rw [this]
    congr 2
    have : max 0 (now.Unix - 60 * ((5 : Nat) : Int)) = now.Unix - 300 := by
      rw [max_eq_right (by omega)]; omega
    rw [this]

/-- The specifier `"-10"` at the epoch 1700000000 (claim C8). -/
theorem startSpecifier_minutes_witness :
    timestampForStartSpecifier [] { sec := 1700000000, nsec := 5 } ['-', '1', '0']
      = some (wrapInt64 (max 0 (Time.Unix { sec := 1700000000, nsec := 5 } - 60 * (10 : Nat))
          * 4294967296)) :=
  ((startSpecifier_minutes [] { sec := 1700000000, nsec := 5 } ['1', '0']
      ⟨by decide, by decide⟩).1 10 (by decide) (by decide) (by decide)).1

/-- Claim C8 as stated fails for `"-153722868"`: the duration of 153722868
minutes overflows `int64` nanoseconds, and the result is not the clamped
timestamp the claim gives. -/
theorem duration_overflow_at_153722868 :
    parseDigits ['1', '5', '3', '7', '2', '2', '8', '6', '8'] 0 = some 153722868 ∧
    timestampForStartSpecifier [] { sec := 1700000000, nsec := 0 }
        ['-', '1', '5', '3', '7', '2', '2', '8', '6', '8']
      ≠ some (wrapInt64 (max 0 (Time.Unix { sec := 1700000000, nsec := 0 }
          - 60 * 153722868) * 4294967296)) := by
  decide

/-! ## The loop of `tail` -/

theorem tailRun_invariant (P : TailState → Prop) (ok : TailState → Event → Bool)
    (hstep : ∀ s ev, P s → ok s ev = true → P (tailStep s ev).1) :
    ∀ (evs : List Event) (s : TailState), P s → runAll ok s evs = true →
      P (tailRun s evs).1 := by
  intro evs
  induction evs with
  | nil => intro s hs _; exact hs
  | cons ev evs ih =>
    intro s hs hrun
    simp only [runAll, Bool.and_eq_true] at hrun
    have h1 := hstep s ev hs hrun.1
    have h2 := hrun.2
    simp only [tailRun]
    rcases hst : tailStep s ev with ⟨s1, st⟩
    rw [hst] at h1 h2
    cases st with
    | running => exact ih s1 h1 h2
    | returned err => exact h1

/-- Claim C10: when `iter.Next` is false and the driver reports the pair
`(iter.Err(), iter.Timeout())`, a set timeout flag only with a nil error, the
next step of `tail` is determined by that pair: on a timeout the loop continues
with the same cursor and the same `lastTs` and `hidsForLastTs`; on
`mgo.ErrCursor` the cursor is discarded and the cursor opened next has the
selector built from the current `lastTs` and `hidsForLastTs`; on any other
error `tail` returns that error, whether or not the timeout flag is set. -/
theorem tail_noDoc_outcome (s : TailState) (err : Option IterErr) (timedOut : Bool)
    (hdriver : driverReports err timedOut = true) :
    (timedOut = true →
      tailStep s (Event.noDoc err timedOut)
        = ({ s with iter := some (openIter s) }, Status.running)) ∧
    (err = some IterErr.ErrCursor →
      tailStep s (Event.noDoc err timedOut) = ({ s with iter := none }, Status.running) ∧
      openIter { s with iter := none }
        = { sel := { lastTs := s.lastTs, hids := s.hidsForLastTs }, pos := 0 }) ∧
    (∀ (msg : String) (flag : Bool),
      tailStep s (Event.noDoc (some (IterErr.other msg)) flag)
        = ({ s with iter := some (openIter s) },
            Status.returned (some (IterErr.other msg)))) := by
  refine ⟨?_, ?_, ?_⟩
  · intro ht
    subst ht
    have he : err = none := by simpa [driverReports] using hdriver
    subst he
    simp [tailStep]
  · intro he
    subst he
    have ht : timedOut = false := by
      cases timedOut with
      | false => rfl
      | true => exact absurd hdriver (by decide)
    subst ht
    exact ⟨by simp [tailStep], by simp [openIter, TailState.selector]⟩
  · intro msg flag
    simp [tailStep]

/-- The expiry of claim C10 in the initial state: the cursor is discarded and
the next one is opened from `lastTs = 0` and no history ID. -/
theorem tail_noDoc_outcome_witness :
    tailStep (tailInit 0) (Event.noDoc (some IterErr.ErrCursor) false)
      = ({ tailInit 0 with iter := none }, Status.running) ∧
    openIter { tailInit 0 with iter := none }
      = { sel := { lastTs := (tailInit 0).lastTs, hids := (tailInit 0).hidsForLastTs },
          pos := 0 } :=
  (tail_noDoc_outcome (tailInit 0) (some IterErr.ErrCursor) false (by decide)).2.1 rfl

theorem noDoc_without_error_or_timeout (s : TailState) :
    tailStep s (Event.noDoc none false) = ({ s with iter := none }, Status.running) := by
  simp [tailStep]

theorem sorted_getElem {oplog : List OplogDoc} (hs : TsSorted oplog) {j i : Nat}
    {e o : OplogDoc} (hji : j < i) (hj : oplog[j]? = some e) (hi : oplog[i]? = some o) :
    e.Timestamp ≤ o.Timestamp := by
  obtain ⟨hj1, hj2⟩ := List.getElem?_eq_some.mp hj
  obtain ⟨hi1, hi2⟩ := List.getElem?_eq_some.mp hi
  have := List.pairwise_iff_getElem.mp hs j i hj1 hi1 hji
  rw [hj2, hi2] at this
  exact this

theorem hidsAt_append (out : List OplogDoc) (o : OplogDoc) (ts : Int) :
    hidsAt (out ++ [o]) ts
      = hidsAt out ts ++ (if o.Timestamp = ts then [o.HistoryID] else []) := by
  unfold hidsAt
  rw [List.filter_append, List.map_append]
  by_cases h : o.Timestamp = ts <;> simp [List.filter, h]

theorem hidsAt_of_below (out : List OplogDoc) (ts : Int)
    (h : ∀ o ∈ out, o.Timestamp < ts) : hidsAt out ts = [] := by
  unfold hidsAt
  rw [List.map_eq_nil_iff, List.filter_eq_nil_iff]
  intro a ha
  have := h a ha
  simp only [decide_eq_true_eq]
  omega

theorem openIter_behind (oplog : List OplogDoc) (s : TailState)
    (h : ∀ it, s.iter = some it → CursorBehind oplog s it) :
    CursorBehind oplog s (openIter s) := by
  unfold openIter
  cases hi : s.iter with
  | none => exact ⟨le_refl _, Or.inl rfl⟩
  | some it => exact h it hi

theorem legit_doc_above (baseQuery : OplogDoc → Bool) (oplog : List OplogDoc)
    (hs : TsSorted oplog) (s : TailState)
    (hc : CursorBehind oplog s (openIter s)) (i : Nat) (o : OplogDoc) (done : Bool)
    (hl : legitEvent baseQuery oplog s (Event.doc i o done) = true) :
    s.lastTs ≤ o.Timestamp := by
  simp only [legitEvent, Bool.and_eq_true, decide_eq_true_eq, Selector.selects,
    Selector.admits, OplogDoc.key] at hl
  obtain ⟨⟨hpos, hget⟩, _, hts, _⟩ := hl
  rcases hc.2 with heq | ⟨j, e, hj, hje, het⟩
  · omega
  · have := sorted_getElem hs (by omega : j < i) hje hget
    omega

theorem resumeInv_step (baseQuery : OplogDoc → Bool) (oplog : List OplogDoc)
    (hs : TsSorted oplog) (s : TailState) (ev : Event)
    (hinv : ResumeInv oplog s) (hl : legitEvent baseQuery oplog s ev = true) :
    ResumeInv oplog (tailStep s ev).1 := by
  have hc := openIter_behind oplog s hinv.cursor
  cases ev with
  | noDoc err timedOut =>
    simp only [tailStep]
    split
    · exact ⟨hinv.below, hinv.hids, fun it hit => by
        simp only [Option.some.injEq] at hit; subst hit; exact hc⟩
    · split
      · exact ⟨hinv.below, hinv.hids, fun it hit => by
          simp only [Option.some.injEq] at hit; subst hit; exact hc⟩
      · exact ⟨hinv.below, hinv.hids, fun it hit => by simp at hit⟩
  | doc i o done =>
    have habove := legit_doc_above baseQuery oplog hs s hc i o done hl
    simp only [legitEvent, Bool.and_eq_true, decide_eq_true_eq] at hl
    obtain ⟨⟨hpos, hget⟩, hsel⟩ := hl
    simp only [tailStep]
    cases done with
    | true =>
      simp only [if_true]
      exact ⟨hinv.below, hinv.hids, fun it hit => by simp at hit⟩
    | false =>
      simp only [Bool.false_eq_true, if_false]
      by_cases hlt : s.lastTs < o.Timestamp
      · simp only [if_pos hlt]
        refine ⟨?_, ?_, ?_⟩
        · intro a ha
          rcases List.mem_append.mp ha with h | h
          · have := hinv.below a h; simp only; omega
          · simp only [List.mem_singleton] at h; subst h; exact le_refl _
        · simp only
          rw [hidsAt_append, if_pos rfl, hidsAt_of_below]
          intro a ha
          have := hinv.below a ha
          omega
        · intro it hit
          simp only [Option.some.injEq] at hit
          subst hit
          have h1 := hc.1
          exact ⟨by simp only; omega, Or.inr ⟨i, o, by simp, hget, rfl⟩⟩
      · simp only [if_neg hlt]
        have heq : o.Timestamp = s.lastTs := by omega
        refine ⟨?_, ?_, ?_⟩
        · intro a ha
          rcases List.mem_append.mp ha with h | h
          · exact hinv.below a h
          · simp only [List.mem_singleton] at h; subst h; simp only; omega
        · simp only
          rw [hidsAt_append, if_pos heq, hinv.hids]
        · intro it hit
          simp only [Option.some.injEq] at hit
          subst hit
          exact ⟨hc.1, Or.inr ⟨i, o, by simp, hget, heq⟩⟩

theorem resumeInv_init (oplog : List OplogDoc) (InitialTs : Int) :
    ResumeInv oplog (tailInit InitialTs) :=
  ⟨fun _ h => by simp [tailInit] at h, rfl, fun _ h => by simp [tailInit] at h⟩

/-- Claim C3, as amended: over an oplog in non-decreasing timestamp order, at
every point of a run in which each cursor yields entries of the oplog matching
its query, `hidsForLastTs` is exactly the list of the history IDs of the
documents already emitted whose timestamp equals `lastTs`; a document above
`lastTs` resets the list to its own history ID; and after documents with
timestamps `T1, T1, T2` and history IDs `1, 2, 3` the cursor re-opened after an
expiry has the selector `ts >= T2`, `h` not in `[3]`. -/
theorem hidsForLastTs_exact (baseQuery : OplogDoc → Bool) (oplog : List OplogDoc)
    (InitialTs : Int) (evs : List Event) (hsorted : TsSorted oplog)
    (hrun : legitRun baseQuery oplog (tailInit InitialTs) evs = true) :
    (tailRun (tailInit InitialTs) evs).1.hidsForLastTs
      = hidsAt (tailRun (tailInit InitialTs) evs).1.out
          (tailRun (tailInit InitialTs) evs).1.lastTs ∧
    (∀ (s : TailState) (i : Nat) (o : OplogDoc), s.lastTs < o.Timestamp →
      (tailStep s (Event.doc i o false)).1.lastTs = o.Timestamp ∧
      (tailStep s (Event.doc i o false)).1.hidsForLastTs = [o.HistoryID]) ∧
    (∀ (T1 T2 : Int) (i1 i2 i3 : Nat), InitialTs ≤ T1 → T1 < T2 →
      openIter (tailRun (tailInit InitialTs)
        [Event.doc i1 (mkDoc T1 1) false, Event.doc i2 (mkDoc T1 2) false,
         Event.doc i3 (mkDoc T2 3) false,
         Event.noDoc (some IterErr.ErrCursor) false]).1
        = { sel := { lastTs := T2, hids := [3] }, pos := 0 }) := by
  refine ⟨?_, ?_, ?_⟩
  · exact (tailRun_invariant (ResumeInv oplog) (legitEvent baseQuery oplog)
      (fun s ev h1 h2 => resumeInv_step baseQuery oplog hsorted s ev h1 h2)
      evs (tailInit InitialTs) (resumeInv_init oplog InitialTs) hrun).hids
  · intro s i o hlt
    simp [tailStep, hlt]
  · intro T1 T2 i1 i2 i3 h1 h2
    by_cases h : InitialTs < T1
    · have h3 : ¬ T1 < T1 := by omega
      simp [tailRun, tailStep, tailInit, openIter, mkDoc, TailState.selector, h, h2, h3]
    · have h3 : T1 = InitialTs := by omega
      subst h3
      simp [tailRun, tailStep, tailInit, openIter, mkDoc, TailState.selector, h2]

/-- The invariant of claim C3 after three documents of a sorted oplog. -/
theorem hidsForLastTs_exact_witness :
    (tailRun (tailInit 0)
        [Event.doc 0 (mkDoc 1 1) false, Event.doc 1 (mkDoc 1 2) false,
         Event.doc 2 (mkDoc 2 3) false]).1.hidsForLastTs
      = hidsAt (tailRun (tailInit 0)
        [Event.doc 0 (mkDoc 1 1) false, Event.doc 1 (mkDoc 1 2) false,
         Event.doc 2 (mkDoc 2 3) false]).1.out
          (tailRun (tailInit 0)
        [Event.doc 0 (mkDoc 1 1) false, Event.doc 1 (mkDoc 1 2) false,
         Event.doc 2 (mkDoc 2 3) false]).1.lastTs :=
  (hidsForLastTs_exact (fun _ => true) [mkDoc 1 1, mkDoc 1 2, mkDoc 2 3] 0
    [Event.doc 0 (mkDoc 1 1) false, Event.doc 1 (mkDoc 1 2) false,
     Event.doc 2 (mkDoc 2 3) false]
    (by unfold TsSorted; decide) (by decide)).1

/-- Claim C3 as stated fails on an oplog that is not in timestamp order: after
`(5, 1)` and `(3, 2)` the list holds history ID 2, which no emitted document
with timestamp `lastTs = 5` has. -/
theorem hidsForLastTs_not_exact_out_of_order :
    legitRun (fun _ => true) [mkDoc 5 1, mkDoc 3 2] (tailInit 0)
      [Event.doc 0 (mkDoc 5 1) false, Event.doc 1 (mkDoc 3 2) false] = true ∧
    2 ∈ (tailRun (tailInit 0)
      [Event.doc 0 (mkDoc 5 1) false, Event.doc 1 (mkDoc 3 2) false]).1.hidsForLastTs ∧
    2 ∉ hidsAt (tailRun (tailInit 0)
      [Event.doc 0 (mkDoc 5 1) false, Event.doc 1 (mkDoc 3 2) false]).1.out
        (tailRun (tailInit 0)
      [Event.doc 0 (mkDoc 5 1) false, Event.doc 1 (mkDoc 3 2) false]).1.lastTs := by
  decide

theorem emitInv_init (oplog : List OplogDoc) (InitialTs : Int) :
    EmitInv oplog (tailInit InitialTs) :=
  ⟨fun _ h => by simp [tailInit] at h, fun _ h => by simp [tailInit] at h,
   by simp [tailInit], fun _ h => by simp [tailInit] at h⟩

theorem emitInv_openIter (oplog : List OplogDoc) (s : TailState) (hinv : EmitInv oplog s) :
    ∀ e ∈ s.out, (openIter s).sel.admits e.key = true →
      ∃ j, j < (openIter s).pos ∧ (oplog.map OplogDoc.key)[j]? = some e.key := by
  unfold openIter
  cases hi : s.iter with
  | some it => exact hinv.passed it hi
  | none =>
    intro e he hadm
    simp only [TailState.selector, Selector.admits, OplogDoc.key, Bool.and_eq_true,
      decide_eq_true_eq, Bool.not_eq_true', List.contains_eq_any_beq, List.any_eq_false,
      beq_iff_eq] at hadm
    have h1 := hinv.below e he
    have h2 := hinv.seen e he (by omega)
    exact absurd rfl (hadm.2 _ h2)

theorem emitInv_step (baseQuery : OplogDoc → Bool) (oplog : List OplogDoc)
    (hpairs : (oplog.map OplogDoc.key).Nodup) (s : TailState) (ev : Event)
    (hinv : EmitInv oplog s) (hl : legitEvent baseQuery oplog s ev = true) :
    EmitInv oplog (tailStep s ev).1 := by
  have hp := emitInv_openIter oplog s hinv
  cases ev with
  | noDoc err timedOut =>
    simp only [tailStep]
    split
    · exact ⟨hinv.below, hinv.seen, hinv.nodup, fun it hit => by
        simp only [Option.some.injEq] at hit; subst hit; exact hp⟩
    · split
      · exact ⟨hinv.below, hinv.seen, hinv.nodup, fun it hit => by
          simp only [Option.some.injEq] at hit; subst hit; exact hp⟩
      · exact ⟨hinv.below, hinv.seen, hinv.nodup, fun it hit => by simp at hit⟩
  | doc i o done =>
    simp only [legitEvent, Bool.and_eq_true, decide_eq_true_eq, Selector.selects] at hl
    obtain ⟨⟨hpos, hget⟩, _, hadm⟩ := hl
    have hkey : (oplog.map OplogDoc.key)[i]? = some o.key := by
      rw [List.getElem?_map, hget]; rfl
    have hfresh : o.key ∉ s.out.map OplogDoc.key := by
      intro hmem
      obtain ⟨e, he, hek⟩ := List.mem_map.mp hmem
      obtain ⟨j, hj, hjk⟩ := hp e he (by rw [hek]; exact hadm)
      have hi : i < (oplog.map OplogDoc.key).length := by
        obtain ⟨h, _⟩ := List.getElem?_eq_some.mp hkey
        exact h
      have := List.nodup_iff_getElem?_ne_getElem?.mp hpairs j i (by omega) hi
      rw [hjk, hkey, hek] at this
      exact this rfl
    simp only [tailStep]
    cases done with
    | true =>
      simp only [if_true]
      exact ⟨hinv.below, hinv.seen, hinv.nodup, fun it hit => by simp at hit⟩
    | false =>
      simp only [Bool.false_eq_true, if_false]
      have hnd : ((s.out ++ [o]).map OplogDoc.key).Nodup := by
        rw [List.map_append, List.nodup_append]
        refine ⟨hinv.nodup, by simp, ?_⟩
        intro a ha hb
        simp only [List.map_cons, List.map_nil, List.mem_singleton] at hb
        subst hb
        exact hfresh ha
      have hpassed : ∀ it, some ({ sel := (openIter s).sel, pos := i + 1 } : Iter) = some it →
          ∀ e ∈ s.out ++ [o], it.sel.admits e.key = true →
            ∃ j, j < it.pos ∧ (oplog.map OplogDoc.key)[j]? = some e.key := by
        intro it hit e he hae
        simp only [Option.some.injEq] at hit
        subst hit
        rcases List.mem_append.mp he with h | h
        · obtain ⟨j, hj, hjk⟩ := hp e h hae
          exact ⟨j, by simp only; omega, hjk⟩
        · simp only [List.mem_singleton] at h
          subst h
          exact ⟨i, by simp, hkey⟩
      by_cases hlt : s.lastTs < o.Timestamp
      · simp only [if_pos hlt]
        refine ⟨?_, ?_, hnd, hpassed⟩
        · intro a ha
          rcases List.mem_append.mp ha with h | h
          · have := hinv.below a h; simp only; omega
          · simp only [List.mem_singleton] at h; subst h; exact le_refl _
        · intro a ha hts
          rcases List.mem_append.mp ha with h | h
          · have := hinv.below a h; simp only at hts; omega
          · simp only [List.mem_singleton] at h; subst h; simp
      · simp only [if_neg hlt]
        refine ⟨?_, ?_, hnd, hpassed⟩
        · intro a ha
          rcases List.mem_append.mp ha with h | h
          · exact hinv.below a h
          · simp only [List.mem_singleton] at h; subst h; simp only; omega
        · intro a ha hts
          rcases List.mem_append.mp ha with h | h
          · exact List.mem_append_left _ (hinv.seen a h hts)
          · simp only [List.mem_singleton] at h; subst h; simp

/-- Claim C1: over an oplog with pairwise distinct (timestamp, historyID)
pairs (in non-decreasing timestamp order; the proof does not need the order),
in every run of `tail` in which each cursor yields, in oplog order, entries
matching the query it was opened with, whatever the expiries and re-openings,
no (timestamp, historyID) pair occurs twice among the documents sent on
`OutChan`. -/
theorem emitted_pairs_nodup (baseQuery : OplogDoc → Bool) (oplog : List OplogDoc)
    (InitialTs : Int) (evs : List Event) (_hsorted : TsSorted oplog)
    (hpairs : (oplog.map OplogDoc.key).Nodup)
    (hrun : legitRun baseQuery oplog (tailInit InitialTs) evs = true) :
    ((tailRun (tailInit InitialTs) evs).1.out.map OplogDoc.key).Nodup :=
  (tailRun_invariant (EmitInv oplog) (legitEvent baseQuery oplog)
    (fun s ev h1 h2 => emitInv_step baseQuery oplog hpairs s ev h1 h2)
    evs (tailInit InitialTs) (emitInv_init oplog InitialTs) hrun).nodup

/-- A run of claim C1 with an expiry between the second and third document. -/
theorem emitted_pairs_nodup_witness :
    ((tailRun (tailInit 0)
      [Event.doc 0 (mkDoc 1 1) false, Event.doc 1 (mkDoc 1 2) false,
       Event.noDoc (some IterErr.ErrCursor) false,
       Event.doc 2 (mkDoc 2 3) false]).1.out.map OplogDoc.key).Nodup :=
  emitted_pairs_nodup (fun _ => true) [mkDoc 1 1, mkDoc 1 2, mkDoc 2 3] 0
    [Event.doc 0 (mkDoc 1 1) false, Event.doc 1 (mkDoc 1 2) false,
     Event.noDoc (some IterErr.ErrCursor) false,
     Event.doc 2 (mkDoc 2 3) false]
    (by unfold TsSorted; decide) (by decide) (by decide)

theorem due_sorted (baseQuery : OplogDoc → Bool) (InitialTs : Int) (oplog : List OplogDoc)
    (hsorted : TsSorted oplog) : TsSorted (due baseQuery InitialTs oplog) :=
  List.Pairwise.sublist (List.filter_sublist _) hsorted

theorem due_hist_nodup (baseQuery : OplogDoc → Bool) (InitialTs : Int)
    (oplog : List OplogDoc) (hhist : (oplog.map OplogDoc.HistoryID).Nodup) :
    ((due baseQuery InitialTs oplog).map OplogDoc.HistoryID).Nodup :=
  List.Nodup.sublist ((List.filter_sublist _).map _) hhist

theorem selects_iff (baseQuery : OplogDoc → Bool) (sel : Selector) (e : OplogDoc) :
    sel.selects baseQuery e = true ↔
      baseQuery e = true ∧ sel.lastTs ≤ e.Timestamp ∧ e.HistoryID ∉ sel.hids := by
  simp [Selector.selects, Selector.admits, OplogDoc.key]

theorem exactInv_reopen (baseQuery : OplogDoc → Bool) (oplog : List OplogDoc)
    (InitialTs : Int) (hsorted : TsSorted oplog)
    (hhist : (oplog.map OplogDoc.HistoryID).Nodup) (s : TailState)
    (hinv : ExactInv baseQuery oplog InitialTs s) :
    s.out ++ oplog.filter (s.selector.selects baseQuery) = due baseQuery InitialTs oplog := by
  obtain ⟨rest, hrest⟩ := hinv.initial
  have hs := due_sorted baseQuery InitialTs oplog hsorted
  have hn := due_hist_nodup baseQuery InitialTs oplog hhist
  rw [hrest] at hs hn
  have h1 : oplog.filter (s.selector.selects baseQuery)
      = (due baseQuery InitialTs oplog).filter (s.selector.selects baseQuery) := by
    unfold due
    rw [List.filter_filter]
    apply List.filter_congr
    intro e _
    by_cases h : s.selector.selects baseQuery e = true
    · have h2 := (selects_iff baseQuery _ e).mp h
      have h3 := hinv.low
      simp only [TailState.selector] at h2
      simp [h, h2.1]
      omega
    · simp [h]
  have h2 : s.out.filter (s.selector.selects baseQuery) = [] := by
    rw [List.filter_eq_nil_iff]
    intro e he hsel
    have h3 := (selects_iff baseQuery _ e).mp hsel
    simp only [TailState.selector] at h3
    have h4 := hinv.below e he
    exact h3.2.2 (hinv.seen e he (by omega))
  have h3 : rest.filter (s.selector.selects baseQuery) = rest := by
    rw [List.filter_eq_self]
    intro e he
    have hdue : e ∈ due baseQuery InitialTs oplog := by
      rw [hrest]; exact List.mem_append_right _ he
    simp only [due, List.mem_filter, Bool.and_eq_true, decide_eq_true_eq] at hdue
    rw [selects_iff]
    simp only [TailState.selector]
    refine ⟨hdue.2.1, ?_, ?_⟩
    · rcases hinv.reached with h | ⟨e1, he1, hts⟩
      · omega
      · have := (List.pairwise_append.mp hs).2.2 e1 he1 e he
        omega
    · intro hmem
      obtain ⟨e1, he1, hh⟩ := hinv.known _ hmem
      rw [List.map_append] at hn
      have hd := (List.nodup_append.mp hn).2.2
      exact hd (List.mem_map.mpr ⟨e1, he1, hh⟩) (List.mem_map.mpr ⟨e, he, rfl⟩)
  rw [h1, hrest, List.filter_append, h2, h3, List.nil_append]

theorem exactInv_openIter (baseQuery : OplogDoc → Bool) (oplog : List OplogDoc)
    (InitialTs : Int) (hsorted : TsSorted oplog)
    (hhist : (oplog.map OplogDoc.HistoryID).Nodup) (s : TailState)
    (hinv : ExactInv baseQuery oplog InitialTs s) :
    s.out ++ (oplog.drop (openIter s).pos).filter ((openIter s).sel.selects baseQuery)
      = due baseQuery InitialTs oplog := by
  unfold openIter
  cases hi : s.iter with
  | some it => exact hinv.cursor it hi
  | none =>
    simp only [List.drop_zero]
    exact exactInv_reopen baseQuery oplog InitialTs hsorted hhist s hinv

theorem filter_drop_next (p : OplogDoc → Bool) (oplog : List OplogDoc) (pos i : Nat)
    (o : OplogDoc) (hpos : pos ≤ i) (hget : oplog[i]? = some o) (hp : p o = true)
    (hskip : ((oplog.take i).drop pos).all (fun e => !(p e)) = true) :
    (oplog.drop pos).filter p = o :: (oplog.drop (i + 1)).filter p := by
  obtain ⟨hi, hio⟩ := List.getElem?_eq_some.mp hget
  have h1 : oplog.drop pos = (oplog.take i).drop pos ++ oplog.drop i := by
    conv_lhs => rw [← List.take_append_drop i oplog]
    rw [List.drop_append_of_le_length]
    rw [List.length_take]
    omega
  have h2 : oplog.drop i = o :: oplog.drop (i + 1) := by
    rw [List.drop_eq_getElem_cons hi, hio]
  have h3 : ((oplog.take i).drop pos).filter p = [] := by
    rw [List.filter_eq_nil_iff]
    intro e he
    have := List.all_eq_true.mp hskip e he
    simpa using this
  rw [h1, List.filter_append, h3, h2, List.nil_append, List.filter_cons_of_pos hp]

theorem exactInv_init (baseQuery : OplogDoc → Bool) (oplog : List OplogDoc)
    (InitialTs : Int) : ExactInv baseQuery oplog InitialTs (tailInit InitialTs) :=
  ⟨le_refl _, fun _ h => by simp [tailInit] at h, Or.inl rfl,
   fun _ h => by simp [tailInit] at h, fun _ h => by simp [tailInit] at h,
   ⟨due baseQuery InitialTs oplog, by simp [tailInit]⟩,
   fun _ h => by simp [tailInit] at h⟩

theorem exactInv_step (baseQuery : OplogDoc → Bool) (oplog : List OplogDoc)
    (InitialTs : Int) (hsorted : TsSorted oplog)
    (hhist : (oplog.map OplogDoc.HistoryID).Nodup) (s : TailState) (ev : Event)
    (hinv : ExactInv baseQuery oplog InitialTs s)
    (hl : exactEvent baseQuery oplog s ev = true) :
    ExactInv baseQuery oplog InitialTs (tailStep s ev).1 := by
  have hcur := exactInv_openIter baseQuery oplog InitialTs hsorted hhist s hinv
  cases ev with
  | noDoc err timedOut =>
    simp only [tailStep]
    split
    · exact ⟨hinv.low, hinv.below, hinv.reached, hinv.seen, hinv.known, hinv.initial,
        fun it hit => by simp only [Option.some.injEq] at hit; subst hit; exact hcur⟩
    · split
      · exact ⟨hinv.low, hinv.below, hinv.reached, hinv.seen, hinv.known, hinv.initial,
          fun it hit => by simp only [Option.some.injEq] at hit; subst hit; exact hcur⟩
      · exact ⟨hinv.low, hinv.below, hinv.reached, hinv.seen, hinv.known, hinv.initial,
          fun it hit => by simp at hit⟩
  | doc i o done =>
    simp only [exactEvent, legitEvent, Bool.and_eq_true, decide_eq_true_eq] at hl
    obtain ⟨⟨⟨hpos, hget⟩, hsel⟩, hskip⟩ := hl
    have hnext := filter_drop_next _ oplog _ i o hpos hget hsel hskip
    simp only [tailStep]
    cases done with
    | true =>
      simp only [if_true]
      exact ⟨hinv.low, hinv.below, hinv.reached, hinv.seen, hinv.known, hinv.initial,
        fun it hit => by simp at hit⟩
    | false =>
      simp only [Bool.false_eq_true, if_false]
      have hcur2 : (s.out ++ [o]) ++
          (oplog.drop (i + 1)).filter ((openIter s).sel.selects baseQuery)
            = due baseQuery InitialTs oplog := by
        rw [← hcur, hnext, List.append_assoc, List.singleton_append]
      have hlow := hinv.low
      by_cases hlt : s.lastTs < o.Timestamp
      · simp only [if_pos hlt]
        refine ⟨by simp only; omega, ?_, Or.inr ⟨o, by simp, rfl⟩, ?_, ?_, ⟨_, hcur2.symm⟩, ?_⟩
        · intro a ha
          rcases List.mem_append.mp ha with h | h
          · have := hinv.below a h; simp only; omega
          · simp only [List.mem_singleton] at h; subst h; exact le_refl _
        · intro a ha hts
          rcases List.mem_append.mp ha with h | h
          · have := hinv.below a h; simp only at hts; omega
          · simp only [List.mem_singleton] at h; subst h; simp
        · intro h hh
          simp only [List.nil_append, List.mem_singleton] at hh
          exact ⟨o, by simp, hh.symm⟩
        · intro it hit
          simp only [Option.some.injEq] at hit
          subst hit
          exact hcur2
      · simp only [if_neg hlt]
        refine ⟨hlow, ?_, ?_, ?_, ?_, ⟨_, hcur2.symm⟩, ?_⟩
        · intro a ha
          rcases List.mem_append.mp ha with h | h
          · exact hinv.below a h
          · simp only [List.mem_singleton] at h; subst h; simp only; omega
        · rcases hinv.reached with h | ⟨e, he, hts⟩
          · exact Or.inl h
          · exact Or.inr ⟨e, List.mem_append_left _ he, hts⟩
        · intro a ha hts
          rcases List.mem_append.mp ha with h | h
          · exact List.mem_append_left _ (hinv.seen a h hts)
          · simp only [List.mem_singleton] at h; subst h; simp
        · intro h hh
          rcases List.mem_append.mp hh with h1 | h1
          · obtain ⟨e, he, heh⟩ := hinv.known h h1
            exact ⟨e, List.mem_append_left _ he, heh⟩
          · simp only [List.mem_singleton] at h1
            exact ⟨o, by simp, h1.symm⟩
        · intro it hit
          simp only [Option.some.injEq] at hit
          subst hit
          exact hcur2

theorem afterExpiry_eq (s : TailState) : afterExpiry s = { s with iter := none } := by
  simp [afterExpiry, tailStep]

/-- Claim C2, as amended: over an oplog in non-decreasing timestamp order with
pairwise distinct history IDs, in every run in which each cursor yields the
entries matching its query in oplog order without skipping one, the query
re-opened after an expiry matches exactly the oplog entries that match the base
query, have a timestamp not below `InitialTs` and have not been emitted yet;
the emitted documents followed by the matched ones are all the due entries in
oplog order, so none is lost and none is repeated. -/
theorem reopened_query_exact (baseQuery : OplogDoc → Bool) (oplog : List OplogDoc)
    (InitialTs : Int) (evs : List Event) (hsorted : TsSorted oplog)
    (hhist : (oplog.map OplogDoc.HistoryID).Nodup)
    (hrun : exactRun baseQuery oplog (tailInit InitialTs) evs = true) :
    (afterExpiry (tailRun (tailInit InitialTs) evs).1).iter = none ∧
    oplog.filter
        ((openIter (afterExpiry (tailRun (tailInit InitialTs) evs).1)).sel.selects baseQuery)
      = oplog.filter (fun e => baseQuery e && decide (InitialTs ≤ e.Timestamp) &&
          decide (e ∉ (afterExpiry (tailRun (tailInit InitialTs) evs).1).out)) ∧
    (afterExpiry (tailRun (tailInit InitialTs) evs).1).out ++ oplog.filter
        ((openIter (afterExpiry (tailRun (tailInit InitialTs) evs).1)).sel.selects baseQuery)
      = due baseQuery InitialTs oplog := by
  have hinv := tailRun_invariant (ExactInv baseQuery oplog InitialTs)
    (exactEvent baseQuery oplog)
    (fun s ev h1 h2 => exactInv_step baseQuery oplog InitialTs hsorted hhist s ev h1 h2)
    evs (tailInit InitialTs) (exactInv_init baseQuery oplog InitialTs) hrun
  generalize (tailRun (tailInit InitialTs) evs).1 = s at hinv
  have hre := exactInv_reopen baseQuery oplog InitialTs hsorted hhist s hinv
  have hopen : (openIter (afterExpiry s)).sel = s.selector := by
    simp [afterExpiry_eq, openIter, TailState.selector]
  have hout : (afterExpiry s).out = s.out := by simp [afterExpiry_eq]
  rw [hopen, hout]
  refine ⟨by simp [afterExpiry_eq], ?_, hre⟩
  have hn : (due baseQuery InitialTs oplog).Nodup :=
    List.Nodup.of_map _ (due_hist_nodup baseQuery InitialTs oplog hhist)
  have h1 : oplog.filter (fun e => baseQuery e && decide (InitialTs ≤ e.Timestamp) &&
      decide (e ∉ s.out))
      = (due baseQuery InitialTs oplog).filter (fun e => decide (e ∉ s.out)) := by
    unfold due
    rw [List.filter_filter]
    apply List.filter_congr
    intro e _
    rw [Bool.and_comm]
  rw [h1, ← hre, List.filter_append]
  rw [← hre] at hn
  have h2 : s.out.filter (fun e => decide (e ∉ s.out)) = [] := by
    rw [List.filter_eq_nil_iff]
    intro e he
    simp [he]
  have h3 : (oplog.filter (s.selector.selects baseQuery)).filter
      (fun e => decide (e ∉ s.out)) = oplog.filter (s.selector.selects baseQuery) := by
    rw [List.filter_eq_self]
    intro e he
    simp only [decide_eq_true_eq]
    intro hmem
    exact (List.nodup_append.mp hn).2.2 hmem he
  rw [h2, h3, List.nil_append]

/-- The resumption of claim C2 after one emitted document and an expiry. -/
theorem reopened_query_exact_witness :
    (afterExpiry (tailRun (tailInit 0) [Event.doc 0 (mkDoc 1 7) false]).1).out
      ++ List.filter
        ((openIter (afterExpiry
          (tailRun (tailInit 0) [Event.doc 0 (mkDoc 1 7) false]).1)).sel.selects
            (fun _ => true)) [mkDoc 1 7, mkDoc 2 8]
      = due (fun _ => true) 0 [mkDoc 1 7, mkDoc 2 8] :=
  (reopened_query_exact (fun _ => true) [mkDoc 1 7, mkDoc 2 8] 0
    [Event.doc 0 (mkDoc 1 7) false]
    (by unfold TsSorted; decide) (by decide) (by decide)).2.2

/-- Claim C2 as stated fails when a history ID recurs at a later timestamp:
over the oplog `(1, 7), (2, 7)`, after `(1, 7)` is emitted and the cursor
expires, the entry `(2, 7)` is not emitted yet and not below `InitialTs`, but
the re-opened query `ts >= 1`, `h` not in `[7]` does not match it. -/
theorem reopened_query_loses_repeated_hid :
    List.Pairwise (fun a b => a.Timestamp ≤ b.Timestamp) [mkDoc 1 7, mkDoc 2 7] ∧
    ([mkDoc 1 7, mkDoc 2 7].map OplogDoc.key).Nodup ∧
    exactRun (fun _ => true) [mkDoc 1 7, mkDoc 2 7] (tailInit 0)
      [Event.doc 0 (mkDoc 1 7) false] = true ∧
    mkDoc 2 7 ∈ [mkDoc 1 7, mkDoc 2 7] ∧
    0 ≤ (mkDoc 2 7).Timestamp ∧
    mkDoc 2 7 ∉
      (afterExpiry (tailRun (tailInit 0) [Event.doc 0 (mkDoc 1 7) false]).1).out ∧
    (openIter (afterExpiry
      (tailRun (tailInit 0) [Event.doc 0 (mkDoc 1 7) false]).1)).sel.selects
        (fun _ => true) (mkDoc 2 7) = false := by
  decide

/-! ## The member selection of `shardNodeForHost` -/

theorem stringOr_cases (v : Value) (dflt : String) :
    stringOr v dflt = dflt ∨ v = Value.str (stringOr v dflt) := by
  cases v <;> simp [stringOr]

theorem stringOr_str (s dflt : String) : stringOr (Value.str s) dflt = s := rfl

theorem selectLoop_cons (m : List (Value × ConfigEntry)) (p : Value × Value)
    (rest : List (Value × Value)) (sel : String) :
    selectLoop m (p :: rest) sel =
      if eligible m p = true then
        (if p.2 = Value.int 2 then stringOr (configOf m p.1).host sel
         else selectLoop m rest (stringOr (configOf m p.1).host sel))
      else selectLoop m rest sel := by
  obtain ⟨id, state⟩ := p
  simp only [selectLoop, eligible, Bool.and_eq_true, Bool.or_eq_true, decide_eq_true_eq]
  by_cases h1 : state = Value.int 1 ∨ state = Value.int 2
  · by_cases h2 : (configOf m id).slaveDelay = Value.int 0
        ∨ (configOf m id).slaveDelay = Value.null
    · simp only [h1, h2, if_true, and_self]
    · simp only [h1, h2, if_true, if_false, and_false]
  · simp only [h1, if_false, false_and]

theorem selectLoop_origin (m : List (Value × ConfigEntry)) :
    ∀ (order : List (Value × Value)) (sel : String),
      selectLoop m order sel = sel ∨
      ∃ p ∈ order, eligible m p = true ∧ declaredHost m p (selectLoop m order sel) := by
  intro order
  induction order with
  | nil => intro sel; exact Or.inl rfl
  | cons p rest ih =>
    intro sel
    rw [selectLoop_cons]
    by_cases he : eligible m p = true
    · simp only [he, if_true]
      by_cases h2 : p.2 = Value.int 2
      · simp only [h2, if_true]
        rcases stringOr_cases (configOf m p.1).host sel with h | h
        · exact Or.inl h
        · exact Or.inr ⟨p, List.mem_cons_self _ _, he, h⟩
      · simp only [h2, if_false]
        rcases ih (stringOr (configOf m p.1).host sel) with h | ⟨q, hq, hqe, hqh⟩
        · rw [h]
          rcases stringOr_cases (configOf m p.1).host sel with h3 | h3
          · exact Or.inl h3
          · exact Or.inr ⟨p, List.mem_cons_self _ _, he, h3⟩
        · exact Or.inr ⟨q, List.mem_cons_of_mem _ hq, hqe, hqh⟩
    · simp only [he, if_false]
      rcases ih sel with h | ⟨q, hq, hqe, hqh⟩
      · exact Or.inl h
      · exact Or.inr ⟨q, List.mem_cons_of_mem _ hq, hqe, hqh⟩

theorem selectedHost_eq (answers : ReplSetAnswers) (order : List (Value × Value))
    (rsConfigMap : List (Value × ConfigEntry)) (rsStatusMap : List (Value × Value))
    (hcfg : rsConfigMapOf answers.rsConfigMembers = some rsConfigMap)
    (hst : rsStatusMapOf answers.rsStatusMembers = some rsStatusMap) :
    selectedHost answers order = some (selectLoop rsConfigMap order "") := by
  simp [selectedHost, hcfg, hst]

theorem selectedHost_panics (answers : ReplSetAnswers) (order : List (Value × Value))
    (h : rsConfigMapOf answers.rsConfigMembers = none ∨
      rsStatusMapOf answers.rsStatusMembers = none) :
    selectedHost answers order = none := by
  unfold selectedHost
  rcases h with h | h
  · rw [h]
  · rw [h]
    cases rsConfigMapOf answers.rsConfigMembers <;> rfl

/-- Claim C5: whatever the replica-set status and configuration, when the two
maps are built (no member `_id` is unhashable, on which the code panics and
returns no host), `shardNodeForHost` selects a host, and that host is empty or
the declared host of a member of the status whose state is 1 or 2 and whose
`slaveDelay` is absent or zero. -/
theorem selected_host_is_eligible (answers : ReplSetAnswers) (order : List (Value × Value))
    (rsConfigMap : List (Value × ConfigEntry)) (rsStatusMap : List (Value × Value))
    (hcfg : rsConfigMapOf answers.rsConfigMembers = some rsConfigMap)
    (hst : rsStatusMapOf answers.rsStatusMembers = some rsStatusMap)
    (hperm : order.Perm rsStatusMap) :
    ∃ r, selectedHost answers order = some r ∧
      (r = "" ∨
        ∃ p ∈ rsStatusMap,
          (p.2 = Value.int 1 ∨ p.2 = Value.int 2) ∧
          ((configOf rsConfigMap p.1).slaveDelay = Value.int 0 ∨
            (configOf rsConfigMap p.1).slaveDelay = Value.null) ∧
          (configOf rsConfigMap p.1).host = Value.str r) := by
  refine ⟨selectLoop rsConfigMap order "",
    selectedHost_eq answers order rsConfigMap rsStatusMap hcfg hst, ?_⟩
  rcases selectLoop_origin rsConfigMap order "" with h | ⟨p, hp, he, hh⟩
  · exact Or.inl h
  · refine Or.inr ⟨p, hperm.mem_iff.mp hp, ?_, ?_, hh⟩
    · simp only [eligible, Bool.and_eq_true, Bool.or_eq_true, decide_eq_true_eq] at he
      exact he.1
    · simp only [eligible, Bool.and_eq_true, Bool.or_eq_true, decide_eq_true_eq] at he
      exact he.2

/-- The selection of claim C5 on a primary and a secondary. -/
theorem selected_host_is_eligible_witness :
    ∃ r, selectedHost sampleAnswers [(Value.int 0, Value.int 1), (Value.int 1, Value.int 2)]
        = some r ∧
      (r = "" ∨
        ∃ p ∈ [(Value.int 1, Value.int 2), (Value.int 0, Value.int 1)],
          (p.2 = Value.int 1 ∨ p.2 = Value.int 2) ∧
          ((configOf sampleConfigMap p.1).slaveDelay = Value.int 0 ∨
            (configOf sampleConfigMap p.1).slaveDelay = Value.null) ∧
          (configOf sampleConfigMap p.1).host = Value.str r) :=
  selected_host_is_eligible sampleAnswers
    [(Value.int 0, Value.int 1), (Value.int 1, Value.int 2)]
    sampleConfigMap [(Value.int 1, Value.int 2), (Value.int 0, Value.int 1)]
    (by decide) (by decide) (by decide)

theorem selectLoop_skip (m : List (Value × ConfigEntry)) :
    ∀ (order : List (Value × Value)) (sel : String),
      (∀ p ∈ order, eligible m p = false) → selectLoop m order sel = sel := by
  intro order
  induction order with
  | nil => intro sel _; rfl
  | cons p rest ih =>
    intro sel h
    rw [selectLoop_cons, h p (List.mem_cons_self _ _)]
    simp only [Bool.false_eq_true, if_false]
    exact ih sel (fun q hq => h q (List.mem_cons_of_mem _ hq))

theorem selectLoop_secondary (m : List (Value × ConfigEntry)) :
    ∀ (order : List (Value × Value)) (sel : String),
      (∀ p ∈ order, eligible m p = true → ∃ h, declaredHost m p h) →
      (∃ p ∈ order, eligible m p = true ∧ p.2 = Value.int 2) →
      ∃ p ∈ order, eligible m p = true ∧ p.2 = Value.int 2 ∧
        declaredHost m p (selectLoop m order sel) := by
  intro order
  induction order with
  | nil => intro sel _ h; obtain ⟨p, hp, _⟩ := h; simp at hp
  | cons p rest ih =>
    intro sel hhost hex
    have hrest : ∀ q ∈ rest, eligible m q = true → ∃ h, declaredHost m q h :=
      fun q hq => hhost q (List.mem_cons_of_mem _ hq)
    rw [selectLoop_cons]
    by_cases he : eligible m p = true
    · obtain ⟨h, hh⟩ := hhost p (List.mem_cons_self _ _) he
      unfold declaredHost at hh
      simp only [he, if_true, hh, stringOr_str]
      by_cases h2 : p.2 = Value.int 2
      · simp only [h2, if_true]
        exact ⟨p, List.mem_cons_self _ _, he, h2, hh⟩
      · simp only [h2, if_false]
        obtain ⟨q, hq, hqe, hq2⟩ := hex
        rcases List.mem_cons.mp hq with hqp | hqr
        · subst hqp; exact absurd hq2 h2
        · obtain ⟨r, hr, hre, hr2, hrh⟩ := ih h hrest ⟨q, hqr, hqe, hq2⟩
          exact ⟨r, List.mem_cons_of_mem _ hr, hre, hr2, hrh⟩
    · simp only [he, if_false]
      obtain ⟨q, hq, hqe, hq2⟩ := hex
      rcases List.mem_cons.mp hq with hqp | hqr
      · subst hqp; exact absurd hqe he
      · obtain ⟨r, hr, hre, hr2, hrh⟩ := ih sel hrest ⟨q, hqr, hqe, hq2⟩
        exact ⟨r, List.mem_cons_of_mem _ hr, hre, hr2, hrh⟩

theorem eligible_state (m : List (Value × ConfigEntry)) (p : Value × Value)
    (he : eligible m p = true) : p.2 = Value.int 1 ∨ p.2 = Value.int 2 := by
  simp only [eligible, Bool.and_eq_true, Bool.or_eq_true, decide_eq_true_eq] at he
  exact he.1

theorem selectLoop_primary (m : List (Value × ConfigEntry)) :
    ∀ (order : List (Value × Value)) (sel : String),
      (∀ p ∈ order, eligible m p = true → ∃ h, declaredHost m p h) →
      (∀ p ∈ order, eligible m p = true → p.2 ≠ Value.int 2) →
      selectLoop m order sel = sel ∨
      ∃ p ∈ order, eligible m p = true ∧ p.2 = Value.int 1 ∧
        declaredHost m p (selectLoop m order sel) := by
  intro order
  induction order with
  | nil => intro sel _ _; exact Or.inl rfl
  | cons p rest ih =>
    intro sel hhost hno
    have hrest : ∀ q ∈ rest, eligible m q = true → ∃ h, declaredHost m q h :=
      fun q hq => hhost q (List.mem_cons_of_mem _ hq)
    have hnor : ∀ q ∈ rest, eligible m q = true → q.2 ≠ Value.int 2 :=
      fun q hq => hno q (List.mem_cons_of_mem _ hq)
    rw [selectLoop_cons]
    by_cases he : eligible m p = true
    · obtain ⟨h, hh⟩ := hhost p (List.mem_cons_self _ _) he
      have h2 := hno p (List.mem_cons_self _ _) he
      have h1 : p.2 = Value.int 1 := by
        rcases eligible_state m p he with h | h
        · exact h
        · exact absurd h h2
      unfold declaredHost at hh
      simp only [he, if_true, hh, h2, if_false, stringOr_str]
      rcases ih h hrest hnor with hk | ⟨q, hq, hqe, hq1, hqh⟩
      · rw [hk]
        exact Or.inr ⟨p, List.mem_cons_self _ _, he, h1, hh⟩
      · exact Or.inr ⟨q, List.mem_cons_of_mem _ hq, hqe, hq1, hqh⟩
    · simp only [he, if_false]
      rcases ih sel hrest hnor with hk | ⟨q, hq, hqe, hq1, hqh⟩
      · exact Or.inl hk
      · exact Or.inr ⟨q, List.mem_cons_of_mem _ hq, hqe, hq1, hqh⟩

theorem selectLoop_primary_found (m : List (Value × ConfigEntry)) :
    ∀ (order : List (Value × Value)) (sel : String),
      (∀ p ∈ order, eligible m p = true → ∃ h, declaredHost m p h) →
      (∀ p ∈ order, eligible m p = true → p.2 ≠ Value.int 2) →
      (∃ p ∈ order, eligible m p = true) →
      ∃ p ∈ order, eligible m p = true ∧ p.2 = Value.int 1 ∧
        declaredHost m p (selectLoop m order sel) := by
  intro order
  induction order with
  | nil => intro sel _ _ h; obtain ⟨p, hp, _⟩ := h; simp at hp
  | cons p rest ih =>
    intro sel hhost hno hex
    have hrest : ∀ q ∈ rest, eligible m q = true → ∃ h, declaredHost m q h :=
      fun q hq => hhost q (List.mem_cons_of_mem _ hq)
    have hnor : ∀ q ∈ rest, eligible m q = true → q.2 ≠ Value.int 2 :=
      fun q hq => hno q (List.mem_cons_of_mem _ hq)
    by_cases he : eligible m p = true
    · obtain ⟨h, hh⟩ := hhost p (List.mem_cons_self _ _) he
      have h2 := hno p (List.mem_cons_self _ _) he
      have h1 : p.2 = Value.int 1 := by
        rcases eligible_state m p he with h | h
        · exact h
        · exact absurd h h2
      rw [selectLoop_cons]
      unfold declaredHost at hh
      simp only [he, if_true, hh, h2, if_false, stringOr_str]
      rcases selectLoop_primary m rest h hrest hnor with hk | ⟨q, hq, hqe, hq1, hqh⟩
      · rw [hk]
        exact ⟨p, List.mem_cons_self _ _, he, h1, hh⟩
      · exact ⟨q, List.mem_cons_of_mem _ hq, hqe, hq1, hqh⟩
    · rw [selectLoop_cons]
      simp only [he, if_false]
      obtain ⟨q, hq, hqe⟩ := hex
      rcases List.mem_cons.mp hq with hqp | hqr
      · subst hqp; exact absurd hqe he
      · obtain ⟨r, hr, hre, hr1, hrh⟩ := ih sel hrest hnor ⟨q, hqr, hqe⟩
        exact ⟨r, List.mem_cons_of_mem _ hr, hre, hr1, hrh⟩

theorem isInteger_of_plain (v : Value) (n : Int) (h : v.otherNumber = false) :
    v.isInteger n = true ↔ v = Value.int n := by
  cases v <;> simp_all [Value.isInteger, Value.otherNumber]

theorem eligibleAsStated_iff (m : List (Value × ConfigEntry)) (p : Value × Value)
    (h1 : p.2.otherNumber = false) (h2 : (configOf m p.1).slaveDelay.otherNumber = false) :
    eligibleAsStated m p = true ↔ eligible m p = true := by
  simp only [eligibleAsStated, eligible, Bool.and_eq_true, Bool.or_eq_true,
    decide_eq_true_eq, isInteger_of_plain _ _ h1, isInteger_of_plain _ _ h2]
  constructor
  · rintro ⟨ha, hb | hb⟩
    · exact ⟨ha, Or.inr hb⟩
    · exact ⟨ha, Or.inl hb⟩
  · rintro ⟨ha, hb | hb⟩
    · exact ⟨ha, Or.inr hb⟩
    · exact ⟨ha, Or.inl hb⟩

/-- Claim C4, as amended: over a replica set whose member `_id`s are hashable,
whose states and `slaveDelay`s are not numbers of another type than `int`, and
whose eligible members each have a declared host that is a string, the
selection returns a host that does not depend on the order in which the loop
visits the members: with an eligible secondary (state 2, `slaveDelay` absent or
zero) it is the declared host of an eligible secondary; otherwise, with an
eligible primary (state 1), the declared host of an eligible primary; otherwise
it is empty. -/
theorem selected_host_order_independent (answers : ReplSetAnswers)
    (order : List (Value × Value))
    (rsConfigMap : List (Value × ConfigEntry)) (rsStatusMap : List (Value × Value))
    (hcfg : rsConfigMapOf answers.rsConfigMembers = some rsConfigMap)
    (hst : rsStatusMapOf answers.rsStatusMembers = some rsStatusMap)
    (hperm : order.Perm rsStatusMap)
    (htyped : ∀ p ∈ rsStatusMap, p.2.otherNumber = false ∧
      (configOf rsConfigMap p.1).slaveDelay.otherNumber = false)
    (hhost : ∀ p ∈ rsStatusMap, eligibleAsStated rsConfigMap p = true →
      ∃ h, declaredHost rsConfigMap p h) :
    ∃ r, selectedHost answers order = some r ∧
      ((∃ p ∈ rsStatusMap, eligibleAsStated rsConfigMap p = true ∧ p.2.isInteger 2 = true) →
        ∃ p ∈ rsStatusMap, eligibleAsStated rsConfigMap p = true ∧
          p.2.isInteger 2 = true ∧ declaredHost rsConfigMap p r) ∧
      ((¬ ∃ p ∈ rsStatusMap,
          eligibleAsStated rsConfigMap p = true ∧ p.2.isInteger 2 = true) →
        (∃ p ∈ rsStatusMap, eligibleAsStated rsConfigMap p = true ∧
          p.2.isInteger 1 = true) →
        ∃ p ∈ rsStatusMap, eligibleAsStated rsConfigMap p = true ∧
          p.2.isInteger 1 = true ∧ declaredHost rsConfigMap p r) ∧
      ((¬ ∃ p ∈ rsStatusMap, eligibleAsStated rsConfigMap p = true) → r = "") := by
  have hel : ∀ p ∈ rsStatusMap,
      (eligibleAsStated rsConfigMap p = true ↔ eligible rsConfigMap p = true) :=
    fun p hp => eligibleAsStated_iff rsConfigMap p (htyped p hp).1 (htyped p hp).2
  have hint : ∀ p ∈ rsStatusMap, ∀ n, (p.2.isInteger n = true ↔ p.2 = Value.int n) :=
    fun p hp n => isInteger_of_plain p.2 n (htyped p hp).1
  have hho : ∀ p ∈ order, eligible rsConfigMap p = true →
      ∃ h, declaredHost rsConfigMap p h :=
    fun p hp he => hhost p (hperm.mem_iff.mp hp) ((hel p (hperm.mem_iff.mp hp)).mpr he)
  refine ⟨selectLoop rsConfigMap order "",
    selectedHost_eq answers order rsConfigMap rsStatusMap hcfg hst, ?_, ?_, ?_⟩
  · rintro ⟨p, hp, he, h2⟩
    obtain ⟨q, hq, hqe, hq2, hqh⟩ := selectLoop_secondary _ order "" hho
      ⟨p, hperm.mem_iff.mpr hp, (hel p hp).mp he, (hint p hp 2).mp h2⟩
    have hqm := hperm.mem_iff.mp hq
    exact ⟨q, hqm, (hel q hqm).mpr hqe, (hint q hqm 2).mpr hq2, hqh⟩
  · rintro hno ⟨p, hp, he, _⟩
    have hno2 : ∀ q ∈ order, eligible rsConfigMap q = true → q.2 ≠ Value.int 2 := by
      intro q hq hqe hq2
      have hqm := hperm.mem_iff.mp hq
      exact hno ⟨q, hqm, (hel q hqm).mpr hqe, (hint q hqm 2).mpr hq2⟩
    obtain ⟨q, hq, hqe, hq1, hqh⟩ := selectLoop_primary_found _ order "" hho hno2
      ⟨p, hperm.mem_iff.mpr hp, (hel p hp).mp he⟩
    have hqm := hperm.mem_iff.mp hq
    exact ⟨q, hqm, (hel q hqm).mpr hqe, (hint q hqm 1).mpr hq1, hqh⟩
  · intro hno
    apply selectLoop_skip
    intro p hp
    by_contra he
    have hpm := hperm.mem_iff.mp hp
    exact hno ⟨p, hpm, (hel p hpm).mpr (by simpa using he)⟩

/-- The selection of claim C4 on a primary visited before a secondary: the
host of the secondary is returned. -/
theorem selected_host_order_independent_witness :
    ∃ r, selectedHost sampleAnswers [(Value.int 0, Value.int 1), (Value.int 1, Value.int 2)]
        = some r ∧
      ∃ p ∈ sampleStatusMap, eligibleAsStated sampleConfigMap p = true ∧
        p.2.isInteger 2 = true ∧ declaredHost sampleConfigMap p r := by
  obtain ⟨r, hr, h1, _, _⟩ := selected_host_order_independent sampleAnswers
    [(Value.int 0, Value.int 1), (Value.int 1, Value.int 2)]
    sampleConfigMap sampleStatusMap (by decide) (by decide) (by decide)
    (by
      intro p hp
      have hmem : p = (Value.int 1, Value.int 2) ∨ p = (Value.int 0, Value.int 1) := by
        simpa [sampleStatusMap] using hp
      rcases hmem with h | h <;> subst h <;> decide)
    (by
      intro p hp _
      have hmem : p = (Value.int 1, Value.int 2) ∨ p = (Value.int 0, Value.int 1) := by
        simpa [sampleStatusMap] using hp
      rcases hmem with h | h
      · subst h; exact ⟨"b:2", by unfold declaredHost; decide⟩
      · subst h; exact ⟨"a:1", by unfold declaredHost; decide⟩)
  exact ⟨r, hr, h1 ⟨(Value.int 1, Value.int 2), by decide, by decide, by decide⟩⟩

/-- Claim C4 as stated fails when the eligible secondary has no declared host:
visited after the primary, it ends the loop with the host of the primary. -/
theorem selected_host_primary_despite_secondary :
    rsConfigMapOf staleAnswers.rsConfigMembers = some staleConfigMap ∧
    rsStatusMapOf staleAnswers.rsStatusMembers = some sampleStatusMap ∧
    List.Perm [(Value.int 0, Value.int 1), (Value.int 1, Value.int 2)] sampleStatusMap ∧
    (∃ p ∈ sampleStatusMap,
      eligibleAsStated staleConfigMap p = true ∧ p.2.isInteger 2 = true) ∧
    selectedHost staleAnswers [(Value.int 0, Value.int 1), (Value.int 1, Value.int 2)]
      = some "a:1" ∧
    ¬ ∃ p ∈ sampleStatusMap,
      eligibleAsStated staleConfigMap p = true ∧ p.2.isInteger 2 = true ∧
      (configOf staleConfigMap p.1).host = Value.str "a:1" := by
  decide

theorem long_zero_delay_is_not_selected :
    rsConfigMapOf longZeroAnswers.rsConfigMembers = some longZeroConfigMap ∧
    (∃ p ∈ sampleStatusMap,
      eligibleAsStated longZeroConfigMap p = true ∧ p.2.isInteger 2 = true) ∧
    selectedHost longZeroAnswers [(Value.int 0, Value.int 1), (Value.int 1, Value.int 2)]
      = some "" ∧
    selectedHost longZeroAnswers [(Value.int 1, Value.int 2), (Value.int 0, Value.int 1)]
      = some "" := by
  decide

theorem unhashable_id_panics :
    selectedHost
      { rsStatusMembers := some [some { id := Value.composite 0, state := Value.int 2 }],
        rsConfigMembers := some [] }
      [(Value.composite 0, Value.int 2)] = none := by
  decide

/-! ## Shard enumeration -/

theorem shardLoop_error (node : String → Option String) (bad : ShardDoc)
    (post : List ShardDoc) (hbad : bad.unreadable = true) :
    ∀ (pre : List ShardDoc) (shardMap : List (String × String)),
      (∀ d ∈ pre, ∀ h id, d.host = Value.str h → h.toList.contains '/' = true →
        d.id = Value.str id → (node h).isSome = true) →
      ∃ msg, shardLoop node (pre ++ bad :: post) shardMap = some (Except.error msg) ∧
        (msg = "could not parse host" ∨ msg = "could not parse id") := by
  intro pre
  induction pre with
  | nil =>
    intro shardMap _
    simp only [List.nil_append]
    unfold shardLoop
    unfold ShardDoc.unreadable at hbad
    cases hh : bad.host <;> try exact ⟨_, rfl, Or.inl rfl⟩
    rename_i host
    rw [hh] at hbad
    simp only [Bool.and_eq_true] at hbad
    simp only [hbad.1, if_true]
    cases hi : bad.id <;> try exact ⟨_, rfl, Or.inr rfl⟩
    rw [hi] at hbad
    exact absurd hbad.2 (by simp)
  | cons d rest ih =>
    intro shardMap hnode
    have hrest : ∀ e ∈ rest, ∀ h id, e.host = Value.str h →
        h.toList.contains '/' = true → e.id = Value.str id → (node h).isSome = true :=
      fun e he => hnode e (List.mem_cons_of_mem _ he)
    simp only [List.cons_append]
    unfold shardLoop
    cases hh : d.host <;> try exact ⟨_, rfl, Or.inl rfl⟩
    rename_i host
    simp only
    by_cases hs : host.toList.contains '/' = true
    · simp only [hs, if_true]
      cases hi : d.id <;> try exact ⟨_, rfl, Or.inr rfl⟩
      rename_i id
      simp only
      have hn := hnode d (List.mem_cons_self _ _) host id hh hs hi
      obtain ⟨n, hn2⟩ := Option.isSome_iff_exists.mp hn
      simp only [hn2]
      exact ih _ hrest
    · simp only [hs, if_false]
      exact ih _ hrest

/-- Claim C9, as amended: when the source is a router, some shard document has
a `host` that is not a string, or a `host` containing `/` with an `_id` that is
not a string, and `shardNodeForHost` returns for the replica-set documents read
before it, `makeShardMap` returns a parse error and leaves the coordinator (its
shard map included) as it was, and `NewCoordinator` returns nil: no coordinator
and no tailers. -/
theorem makeShardMap_parse_error (cfg : MongoConfig) (env : Deployment) (c : Coordinator)
    (pre : List ShardDoc) (bad : ShardDoc) (post : List ShardDoc)
    (hmongos : sourceIsMongos env = true)
    (hdocs : env.shardDocs = pre ++ bad :: post)
    (hbad : bad.unreadable = true)
    (hnode : ∀ d ∈ pre, ∀ h id, d.host = Value.str h → h.toList.contains '/' = true →
      d.id = Value.str id → (shardNodeForHost cfg env h).isSome = true) :
    (∃ msg, makeShardMap cfg env c = some (c, some msg) ∧
      (msg = "could not parse host" ∨ msg = "could not parse id")) ∧
    NewCoordinator cfg env = some none := by
  have key : ∀ c0 : Coordinator, ∃ msg, makeShardMap cfg env c0 = some (c0, some msg) ∧
      (msg = "could not parse host" ∨ msg = "could not parse id") := by
    intro c0
    obtain ⟨msg, h1, h2⟩ := shardLoop_error (shardNodeForHost cfg env) bad post hbad pre []
      hnode
    exact ⟨msg, by simp [makeShardMap, hdocs, h1], h2⟩
  refine ⟨key c, ?_⟩
  obtain ⟨msg, h1, _⟩ := key
    { Tailers := [], shards := none, isMongos := sourceIsMongos env }
  simp only [NewCoordinator, hmongos, if_true]
  rw [hmongos] at h1
  rw [h1]

/-- The failure of claim C9 on a replica-set shard followed by a document
without `host`. -/
theorem makeShardMap_parse_error_witness :
    NewCoordinator sampleConfig brokenShardEnv = some none :=
  (makeShardMap_parse_error sampleConfig brokenShardEnv
    { Tailers := [], shards := none, isMongos := true }
    [{ host := Value.str "rs0/a:1,b:2", id := Value.str "s0" }]
    { host := Value.null, id := Value.str "s1" } []
    (by decide) (by decide) (by decide)
    (by
      intro d hd h id hh _ _
      simp only [List.mem_singleton] at hd
      subst hd
      simp only [Value.str.injEq] at hh
      subst hh
      decide)).2

theorem unreadable_id_on_undialable_shard :
    NewCoordinator sampleConfig
      { isMasterMsg := Value.str "isdbgrid",
        shardDocs := [{ host := Value.str "rs0/a:1,b:2", id := Value.null }],
        dial := fun _ => none,
        visit := fun m => m } = some none := by
  decide

/-- Claim C9 as stated fails for a document with a host without `/` and no
`_id`: it is skipped, `makeShardMap` returns nil and sets an empty map, and
`NewCoordinator` returns a coordinator. -/
theorem missing_id_without_slash_is_skipped :
    sourceIsMongos standaloneShardEnv = true ∧
    (∃ d ∈ standaloneShardEnv.shardDocs, ∀ s, d.id ≠ Value.str s) ∧
    makeShardMap sampleConfig standaloneShardEnv
        { Tailers := [], shards := none, isMongos := true }
      = some ({ Tailers := [], shards := some [], isMongos := true }, none) ∧
    NewCoordinator sampleConfig standaloneShardEnv
      = some (some { Tailers := [], shards := some [], isMongos := true }) := by
  refine ⟨by decide, ⟨{ host := Value.str "a:1", id := Value.null }, by
    simp [standaloneShardEnv], by intro s; simp⟩, by decide, by decide⟩

end Oplog
